import Mathlib

/-!
Verification of the dispatch-and-aggregation core of the mageai-monitoring
repository: a shallow embedding of `src/dispatcher.py` (event decoding and the
accumulating handler dispatcher), `src/metrics.py` (gauge emission), and
`src/handlers/processable_base.py` (the processable-claims handler family),
together with proofs of the testable properties stated for them.

Conventions of the embedding:
- Python JSON-like values are the inductive `JVal`; JSON numbers are modelled
  as integers (the events carry no fractional numbers).
- Python floats are modelled by `ℚ` (exact arithmetic; the values the handlers
  aggregate and divide are finite decimals).
- A Python function that can raise an uncaught exception returns `PyResult`;
  one whose failures are all caught returns `Option`.
- `datetime` values are modelled by their normalised ISO-8601 strings.
-/

set_option maxHeartbeats 1000000

/-- JSON-like values, the shape of decoded Pub/Sub messages. -/
inductive JVal where
  | null
  | jbool (b : Bool)
  | jnum (i : Int)
  | jstr (s : String)
  | jarr (elems : List JVal)
  | jobj (fields : List (String × JVal))

/-- Dictionary lookup, `d.get(k)`: the first binding of `k` in an object,
`none` on a missing key or a non-object. -/
def objGet (v : JVal) (k : String) : Option JVal :=
  match v with
  | .jobj fields => (fields.find? (fun kv => kv.1 == k)).map (fun kv => kv.2)
  | _ => none

/-- Python truthiness of a JSON-like value (`if x:`). String emptiness is
tested on the character list so that proofs never touch byte positions. -/
def truthy : JVal → Bool
  | .null => false
  | .jbool b => b
  | .jnum i => decide (i ≠ 0)
  | .jstr s => !s.data.isEmpty
  | .jarr l => !l.isEmpty
  | .jobj l => !l.isEmpty

/-- Python `k in d` on a decoded object. -/
def hasKey (v : JVal) (k : String) : Bool :=
  (objGet v k).isSome

/-! ## Base64 (RFC 4648), as used by `base64.b64decode` / `b64encode`

The decoder is the strict decoder on alphabet-only input: padding is required
and the length must be a multiple of four.  (Python's default decoder first
discards characters outside the alphabet; no event in scope contains any.)
Bytes are `Nat` values below 256. -/

/-- The 64-character base64 alphabet. -/
def b64Alphabet : List Char :=
  "ABCDEFGHIJKLMNOPQRSTUVWXYZabcdefghijklmnopqrstuvwxyz0123456789+/".data

/-- Character for a six-bit group. -/
def sextetChar (n : Nat) : Char := b64Alphabet.getD n 'A'

/-- Six-bit group of an alphabet character, `none` outside the alphabet. -/
def charSextet (c : Char) : Option Nat := b64Alphabet.findIdx? (fun a => a == c)

/-- `base64.b64encode`: three bytes map to four alphabet characters; a final
group of one or two bytes is padded with `=`. -/
def b64EncodeBytes : List Nat → List Char
  | [] => []
  | [b1] => [sextetChar (b1 / 4), sextetChar (b1 % 4 * 16), '=', '=']
  | [b1, b2] => [sextetChar (b1 / 4), sextetChar (b1 % 4 * 16 + b2 / 16),
      sextetChar (b2 % 16 * 4), '=']
  | b1 :: b2 :: b3 :: rest =>
      sextetChar (b1 / 4) :: sextetChar (b1 % 4 * 16 + b2 / 16) ::
      sextetChar (b2 % 16 * 4 + b3 / 64) :: sextetChar (b3 % 64) :: b64EncodeBytes rest

/-- `base64.b64decode` on alphabet-only text: groups of four characters, the
last group possibly padded.  Trailing bits of a padded group are ignored, as
Python ignores them. -/
def b64DecodeBytes : List Char → Option (List Nat)
  | [] => some []
  | [c1, c2, '=', '='] => do
      let s1 ← charSextet c1
      let s2 ← charSextet c2
      pure [s1 * 4 + s2 / 16]
  | [c1, c2, c3, '='] => do
      let s1 ← charSextet c1
      let s2 ← charSextet c2
      let s3 ← charSextet c3
      pure [s1 * 4 + s2 / 16, s2 % 16 * 16 + s3 / 4]
  | c1 :: c2 :: c3 :: c4 :: rest => do
      let s1 ← charSextet c1
      let s2 ← charSextet c2
      let s3 ← charSextet c3
      let s4 ← charSextet c4
      let tail ← b64DecodeBytes rest
      pure ((s1 * 4 + s2 / 16) :: (s2 % 16 * 16 + s3 / 4) :: (s3 % 4 * 64 + s4) :: tail)
  | _ => none

/-! ## UTF-8, as used by `bytes.decode("utf-8")` / `str.encode("utf-8")` -/

/-- UTF-8 encoding of one scalar value. -/
def utf8EncodeChar (c : Char) : List Nat :=
  let n := c.toNat
  if n < 128 then [n]
  else if n < 2048 then [192 + n / 64, 128 + n % 64]
  else if n < 65536 then [224 + n / 4096, 128 + n / 64 % 64, 128 + n % 64]
  else [240 + n / 262144, 128 + n / 4096 % 64, 128 + n / 64 % 64, 128 + n % 64]

/-- `str.encode("utf-8")`. -/
def utf8Encode (s : List Char) : List Nat := (s.map utf8EncodeChar).flatten

/-- A UTF-8 continuation byte. -/
def isCont (b : Nat) : Bool := 128 ≤ b && b < 192

/-- `bytes.decode("utf-8")`: strict decoding, rejecting overlong forms,
surrogates and out-of-range values, exactly as Python does. -/
def utf8Decode : List Nat → Option (List Char)
  | [] => some []
  | b1 :: rest =>
      if b1 < 128 then
        (utf8Decode rest).map (fun t => Char.ofNat b1 :: t)
      else if 194 ≤ b1 && b1 < 224 then
        match rest with
        | b2 :: rest2 =>
            if isCont b2 then
              (utf8Decode rest2).map (fun t => Char.ofNat ((b1 - 192) * 64 + (b2 - 128)) :: t)
            else none
        | [] => none
      else if 224 ≤ b1 && b1 < 240 then
        match rest with
        | b2 :: b3 :: rest3 =>
            let n := (b1 - 224) * 4096 + (b2 - 128) * 64 + (b3 - 128)
            if isCont b2 && isCont b3 && decide (2048 ≤ n) &&
                !(decide (55296 ≤ n) && decide (n < 57344)) then
              (utf8Decode rest3).map (fun t => Char.ofNat n :: t)
            else none
        | _ => none
      else if 240 ≤ b1 && b1 < 245 then
        match rest with
        | b2 :: b3 :: b4 :: rest4 =>
            let n := (b1 - 240) * 262144 + (b2 - 128) * 4096 + (b3 - 128) * 64 + (b4 - 128)
            if isCont b2 && isCont b3 && isCont b4 && decide (65536 ≤ n) &&
                decide (n < 1114112) then
              (utf8Decode rest4).map (fun t => Char.ofNat n :: t)
            else none
        | _ => none
      else none

/-! ## JSON text, as used by `json.dumps` / `json.loads`

The printer follows `json.dumps(..., ensure_ascii=False)` with the default
separators (`", "` and `": "`); the reader follows `json.loads` restricted to
integer numerals (the events in scope carry no fractional literals). -/

/-- Decimal digit character. -/
def decDigit (k : Nat) : Char := Char.ofNat (48 + k)

/-- Decimal digits of a natural number, most significant first. -/
def natDigits (n : Nat) : List Char :=
  if _h : n < 10 then [decDigit n] else natDigits (n / 10) ++ [decDigit (n % 10)]
termination_by n
decreasing_by exact Nat.div_lt_self (by omega) (by omega)

/-- Decimal rendering of an integer: optional sign, then digits. -/
def intChars (i : Int) : List Char :=
  (if i < 0 then ['-'] else []) ++ natDigits i.natAbs

/-- The escape `json.dumps` applies to one character (with
`ensure_ascii=False`): quote, backslash and the five short control escapes,
`\u00XX` for the remaining control characters, all else verbatim. -/
def pyEscapeChar (c : Char) : List Char :=
  if c = '"' then ['\\', '"']
  else if c = '\\' then ['\\', '\\']
  else if c = '\n' then ['\\', 'n']
  else if c = '\r' then ['\\', 'r']
  else if c = '\t' then ['\\', 't']
  else if c = Char.ofNat 8 then ['\\', 'b']
  else if c = Char.ofNat 12 then ['\\', 'f']
  else if c.toNat < 32 then
    ['\\', 'u', '0', '0',
     (if c.toNat / 16 < 10 then Char.ofNat (48 + c.toNat / 16) else Char.ofNat (87 + c.toNat / 16)),
     (if c.toNat % 16 < 10 then Char.ofNat (48 + c.toNat % 16) else Char.ofNat (87 + c.toNat % 16))]
  else [c]

/-- A JSON string literal: quoted, characterwise-escaped text. -/
def printStr (s : List Char) : List Char :=
  '"' :: ((s.map pyEscapeChar).flatten ++ ['"'])

mutual

/-- `json.dumps` of a value (text as a character list). -/
def printJson : JVal → List Char
  | .null => ['n', 'u', 'l', 'l']
  | .jbool true => ['t', 'r', 'u', 'e']
  | .jbool false => ['f', 'a', 'l', 's', 'e']
  | .jnum i => intChars i
  | .jstr s => printStr s.data
  | .jarr elems => '[' :: (printItems elems ++ [']'])
  | .jobj fields => '{' :: (printPairs fields ++ ['}'])

/-- Array elements, separated by `", "`. -/
def printItems : List JVal → List Char
  | [] => []
  | [x] => printJson x
  | x :: y :: t => printJson x ++ ',' :: ' ' :: printItems (y :: t)

/-- Object members, `"key": value` separated by `", "`. -/
def printPairs : List (String × JVal) → List Char
  | [] => []
  | [(k, v)] => printStr k.data ++ ':' :: ' ' :: printJson v
  | (k, v) :: p :: t => printStr k.data ++ ':' :: ' ' :: printJson v ++ ',' :: ' ' :: printPairs (p :: t)

end

/-- JSON insignificant whitespace. -/
def isJsonWs (c : Char) : Bool := c = ' ' || c = '\t' || c = '\n' || c = '\r'

/-- Drop leading JSON whitespace. -/
def skipSpaces : List Char → List Char
  | c :: t => if isJsonWs c then skipSpaces t else c :: t
  | [] => []

/-- Decimal digit test. -/
def isDigitCh (c : Char) : Bool := 48 ≤ c.toNat && c.toNat ≤ 57

/-- Longest leading digit run and the remainder. -/
def readDigits : List Char → List Char × List Char
  | c :: t =>
      if isDigitCh c then
        let p := readDigits t
        (c :: p.1, p.2)
      else ([], c :: t)
  | [] => ([], [])

/-- Value of a digit run. -/
def digitsVal (ds : List Char) : Nat :=
  ds.foldl (fun a c => a * 10 + (c.toNat - 48)) 0

/-- Hexadecimal digit value. -/
def hexv (c : Char) : Option Nat :=
  if 48 ≤ c.toNat && c.toNat ≤ 57 then some (c.toNat - 48)
  else if 97 ≤ c.toNat && c.toNat ≤ 102 then some (c.toNat - 87)
  else if 65 ≤ c.toNat && c.toNat ≤ 70 then some (c.toNat - 55)
  else none

/-- The inverse of a short escape. -/
def unescapePy (e : Char) : Option Char :=
  if e = 'b' then some (Char.ofNat 8)
  else if e = 't' then some '\t'
  else if e = 'n' then some '\n'
  else if e = 'f' then some (Char.ofNat 12)
  else if e = 'r' then some '\r'
  else if e = '"' then some '"'
  else if e = '/' then some '/'
  else if e = '\\' then some '\\'
  else none

/-- Body of a JSON string literal after the opening quote: content up to the
closing quote, and the remainder.  Raw control characters are rejected, as
`json.loads` (strict mode) rejects them. -/
def readStringBody : List Char → Option (List Char × List Char)
  | [] => none
  | c :: t =>
      if c = '"' then some ([], t)
      else if c = '\\' then
        match t with
        | [] => none
        | e :: t2 =>
            if e = 'u' then
              match t2 with
              | h1 :: h2 :: h3 :: h4 :: t3 => do
                  let v1 ← hexv h1
                  let v2 ← hexv h2
                  let v3 ← hexv h3
                  let v4 ← hexv h4
                  let p ← readStringBody t3
                  pure (Char.ofNat (((v1 * 16 + v2) * 16 + v3) * 16 + v4) :: p.1, p.2)
              | _ => none
            else do
              let u ← unescapePy e
              let p ← readStringBody t2
              pure (u :: p.1, p.2)
      else if c.toNat < 32 then none
      else do
        let p ← readStringBody t
        pure (c :: p.1, p.2)

mutual

/-- `json.loads`, value level: reads one value from the input, returning it
with the unconsumed remainder.  `fuel` bounds the recursion depth; the
top-level wrapper supplies more fuel than any input can use. -/
def readJson : Nat → List Char → Option (JVal × List Char)
  | 0, _ => none
  | fuel + 1, input =>
      match skipSpaces input with
      | [] => none
      | c :: r =>
          if c = 'n' then
            match r with
            | 'u' :: 'l' :: 'l' :: r2 => some (.null, r2)
            | _ => none
          else if c = 't' then
            match r with
            | 'r' :: 'u' :: 'e' :: r2 => some (.jbool true, r2)
            | _ => none
          else if c = 'f' then
            match r with
            | 'a' :: 'l' :: 's' :: 'e' :: r2 => some (.jbool false, r2)
            | _ => none
          else if c = '"' then
            (readStringBody r).map (fun p => (.jstr ⟨p.1⟩, p.2))
          else if c = '[' then
            match skipSpaces r with
            | [] => none
            | c2 :: r2 =>
                if c2 = ']' then some (.jarr [], r2)
                else (readItems fuel (c2 :: r2)).map (fun p => (.jarr p.1, p.2))
          else if c = '{' then
            match skipSpaces r with
            | [] => none
            | c2 :: r2 =>
                if c2 = '}' then some (.jobj [], r2)
                else (readPairs fuel (c2 :: r2)).map (fun p => (.jobj p.1, p.2))
          else if c = '-' then
            let p := readDigits r
            if p.1.isEmpty then none else some (.jnum (-(digitsVal p.1 : Int)), p.2)
          else if isDigitCh c then
            let p := readDigits (c :: r)
            if p.1.isEmpty then none else some (.jnum (digitsVal p.1 : Int), p.2)
          else none

/-- One or more comma-separated array elements up to the closing bracket. -/
def readItems : Nat → List Char → Option (List JVal × List Char)
  | 0, _ => none
  | fuel + 1, input => do
      let p ← readJson fuel input
      match skipSpaces p.2 with
      | [] => none
      | c :: r2 =>
          if c = ',' then do
            let q ← readItems fuel r2
            pure (p.1 :: q.1, q.2)
          else if c = ']' then pure ([p.1], r2)
          else none

/-- One or more comma-separated object members up to the closing brace. -/
def readPairs : Nat → List Char → Option (List (String × JVal) × List Char)
  | 0, _ => none
  | fuel + 1, input =>
      match skipSpaces input with
      | [] => none
      | c :: r =>
          if c = '"' then do
            let kp ← readStringBody r
            match skipSpaces kp.2 with
            | [] => none
            | c2 :: r2 =>
                if c2 = ':' then do
                  let vp ← readJson fuel r2
                  match skipSpaces vp.2 with
                  | [] => none
                  | c3 :: r4 =>
                      if c3 = ',' then do
                        let q ← readPairs fuel r4
                        pure ((⟨kp.1⟩, vp.1) :: q.1, q.2)
                      else if c3 = '}' then pure ([(⟨kp.1⟩, vp.1)], r4)
                      else none
                else none
          else none

end

/-- `json.loads` on a complete document: one value, then only whitespace. -/
def jsonLoads (s : List Char) : Option JVal :=
  match readJson (s.length + 1) s with
  | some (v, r) => if (skipSpaces r).isEmpty then some v else none
  | none => none

/-- The decode pipeline of the envelope branch of `decode_message`:
`base64.b64decode(...)`, `.decode("utf-8")`, `json.loads(...)`, with every
failure collapsed to `none` (the `except` clause of `decode_message`). -/
def decodeChain (s : List Char) : Option JVal :=
  (b64DecodeBytes s).bind (fun bytes => (utf8Decode bytes).bind (fun cs => jsonLoads cs))

/-- `decode_message` (src/dispatcher.py): the envelope branch when
`data.message.data` is truthy, otherwise the direct-payload check.  The
`Option` result models the returning paths only; the Python function also
has uncaught raising paths (see `decodeSafe`), which this model folds into
decode failure or direct-payload success. -/
def decode_message (data : JVal) : Option JVal :=
  let message := (objGet data "message").getD (.jobj [])
  let encoded := (objGet message "data").getD .null
  if truthy encoded then
    match encoded with
    | .jstr s => decodeChain s.data
    | _ => none
  else
    if hasKey data "payload" && hasKey data "source_timestamp" then some data
    else none

/-- The events on which the Python `decode_message` returns rather than
raising, read off src/dispatcher.py lines 30-46: `data.get` raises an
uncaught `AttributeError` when `data` is not a mapping (line 33), as does
`message.get` when the `message` value is present but not a mapping — e.g.
an explicit `null` (line 34); and `base64.b64decode` raises an uncaught
`TypeError` when a truthy `message.data` is not a string (line 38) — the
`except` clause catches only `ValueError` (with `binascii.Error`),
`JSONDecodeError` and `UnicodeDecodeError` (line 40).  The `Option`-valued
`decode_message` model is faithful exactly on these events. -/
def decodeSafe : JVal → Bool
  | .jobj kvs =>
      match objGet (.jobj kvs) "message" with
      | none => true
      | some (.jobj ms) =>
          match (objGet (.jobj ms) "data").getD .null with
          | .jstr _ => true
          | e => !truthy e
      | some _ => false
  | _ => false

/-- The transport-envelope encoding of a structured payload, as the tests and
the event source build it: `json.dumps`, `.encode("utf-8")`,
`base64.b64encode`. -/
def encodePayload (P : JVal) : List Char :=
  b64EncodeBytes (utf8Encode (printJson P))

/-- The envelope shape `data = message.data = <base64 text>` wrapping an
encoded payload. -/
def envelopeOf (P : JVal) : JVal :=
  .jobj [("message", .jobj [("data", .jstr ⟨encodePayload P⟩)])]

/-! ## Metric points and the monitoring sink (`src/metrics.py`)

`emit_gauge_metric` builds one time-series point from its arguments and hands
it to the sink (`create_time_series`).  A `MetricPoint` records exactly those
arguments; `datetime` values are their normalised ISO strings. -/

/-- Timestamps, modelled as normalised ISO-8601 strings. -/
abbrev Timestamp := String

/-- One gauge point as `emit_gauge_metric` sends it. -/
structure MetricPoint where
  project : String
  name : String
  value : ℚ
  labels : List (String × String)
  timestamp : Timestamp
deriving DecidableEq

/-- Terminal value of `make_response((body, status))`. -/
structure Response where
  body : String
  status : Nat
deriving DecidableEq

/-- Result of running a piece of Python that may raise an uncaught
exception. -/
inductive PyResult (α : Type) where
  | ok (a : α)
  | raised
deriving DecidableEq

/-- Outcome of one `handler.match(decoded_message)` call: a boolean, or an
exception escaping the matcher. -/
inductive MatchRes where
  | ok (b : Bool)
  | exn
deriving DecidableEq

/-- Outcome of one `handler.handle(decoded_message)` call, together with the
gauge points the handler emitted before returning or raising. -/
inductive HandleRes where
  | ok (emits : List MetricPoint)
  | badRequest (msg : String) (emits : List MetricPoint)
  | exn (emits : List MetricPoint)
deriving DecidableEq

/-- The gauge points a handler outcome emitted. -/
def HandleRes.emits : HandleRes → List MetricPoint
  | .ok e => e
  | .badRequest _ e => e
  | .exn e => e

/-- A registered handler, as the dispatcher sees it: a class name and the
(deterministic) outcomes of its `match` and `handle` on each message. -/
structure MHandler where
  name : String
  matchf : JVal → MatchRes
  handlef : JVal → HandleRes

/-- Error kinds the dispatcher accumulates from `handle` calls. -/
inductive ErrKind where
  | bad_request
  | internal_error
deriving DecidableEq

/-- One accumulated handler error: class name, kind, and the message of a
`HandlerBadRequestError` (empty for other exceptions). -/
abbrev ErrRec := String × ErrKind × String

/-- The matcher loop of `dispatch`: accumulated matcher errors (class names,
in registration order) and the matched handlers (in registration order). -/
def runMatchers (hs : List MHandler) (m : JVal) : List String × List MHandler :=
  match hs with
  | [] => ([], [])
  | h :: t =>
      let rest := runMatchers t m
      match h.matchf m with
      | .ok true => (rest.1, h :: rest.2)
      | .ok false => (rest.1, rest.2)
      | .exn => (h.name :: rest.1, rest.2)

/-- The handler loop of `dispatch`: all gauge points emitted by the matched
handlers (in execution order) and the accumulated handler errors. -/
def runHandlers (hs : List MHandler) (m : JVal) : List MetricPoint × List ErrRec :=
  match hs with
  | [] => ([], [])
  | h :: t =>
      let rest := runHandlers t m
      match h.handlef m with
      | .ok e => (e ++ rest.1, rest.2)
      | .badRequest msg e => (e ++ rest.1, (h.name, .bad_request, msg) :: rest.2)
      | .exn e => (e ++ rest.1, (h.name, .internal_error, "") :: rest.2)

/-- Sequential sink calls: succeeds when the sink accepts every point, raises
at the first point the sink rejects (the dispatcher does not catch sink
errors). -/
def emitSeq (sinkOk : MetricPoint → Bool) : List MetricPoint → PyResult Unit
  | [] => .ok ()
  | p :: t => if sinkOk p then emitSeq sinkOk t else .raised

/-- One dispatcher failure gauge (`emit_gauge_metric` with value `1.0`, label
`handler_class`, and the wall-clock timestamp captured at dispatch start). -/
def mkFailureGauge (pid : String) (now : Timestamp) (metricName handlerClass : String) :
    MetricPoint :=
  { project := pid, name := metricName, value := 1,
    labels := [("handler_class", handlerClass)], timestamp := now }

/-- The failure gauges `dispatch` emits in its reducing step: one
`handler_matcher_failure` per matcher error, then one
`handler_execution_failure` per handler error. -/
def failureGauges (pid : String) (now : Timestamp) (matcherErrs : List String)
    (handlerErrs : List ErrRec) : List MetricPoint :=
  matcherErrs.map (mkFailureGauge pid now "handler_matcher_failure") ++
    handlerErrs.map (fun r => mkFailureGauge pid now "handler_execution_failure" r.1)

/-- `HandlerDispatcher.dispatch` (src/dispatcher.py): decode, match all
handlers, execute all matched handlers, emit one failure gauge per recorded
failure, then reduce to one terminal response.  Returns the response together
with every gauge point emitted during the call (handler emissions in
execution order, then the failure gauges); `raised` when a sink error escapes
the failure-gauge loop. -/
def dispatch (hs : List MHandler) (sinkOk : MetricPoint → Bool) (pid : String)
    (now : Timestamp) (data : JVal) : PyResult (Response × List MetricPoint) :=
  match decode_message data with
  | none => .ok ({ body := "Bad Request: Invalid message format", status := 400 }, [])
  | some msg =>
      let me := runMatchers hs msg
      let he := runHandlers me.2 msg
      let gauges := failureGauges pid now me.1 he.2
      match emitSeq sinkOk gauges with
      | .raised => .raised
      | .ok _ =>
          let trace := he.1 ++ gauges
          if !me.1.isEmpty then
            .ok ({ body := "Internal Server Error", status := 500 }, trace)
          else if !he.2.isEmpty then
            match he.2.filter (fun r => r.2.1 == ErrKind.bad_request) with
            | r :: _ => .ok ({ body := r.2.2, status := 400 }, trace)
            | [] => .ok ({ body := "Internal Server Error", status := 500 }, trace)
          else if me.2.isEmpty then
            .ok ({ body := "", status := 204 }, trace)
          else
            .ok ({ body := "", status := 204 }, trace)

/-! ## The processable-claims handler family
(`src/handlers/processable_base.py`, `processable_approval.py`) -/

/-- The analytics store as the handler sees it: for each fully-qualified
table reference, `none` when `get_table` raises `NotFound`, otherwise the
value of `SELECT COALESCE(SUM(vl_pago), 0)` over the table. -/
structure BQEnv where
  tableSum : String → Option ℚ

/-- The per-pipeline configuration a concrete processable handler passes to
`_handle_processable_metrics`. -/
structure ProcessableCfg where
  pipeline_uuid : String
  processable_table_var : String
  unprocessable_table_var : String
  approved_value : String

/-- `str.replace` with a one-character pattern, as in
`source_timestamp.replace("Z", "+00:00")`. -/
def replaceChar (c : Char) (repl : List Char) : List Char → List Char
  | [] => []
  | x :: t => (if x = c then repl else [x]) ++ replaceChar c repl t

/-- `datetime.fromisoformat(s.replace("Z", "+00:00"))`, modelled as the
normalised string. -/
def pyFromIso (s : String) : Timestamp :=
  ⟨replaceChar 'Z' "+00:00".data s.data⟩

/-- `str(x)` restricted to the scalar values a `partner` variable takes. -/
def pyStr : JVal → String
  | .jstr s => s
  | .jbool true => "True"
  | .jbool false => "False"
  | .null => "None"
  | .jnum i => ⟨intChars i⟩
  | _ => ""

/-- Python `value != expected` for `payload.get(k)` against a string
constant: false exactly when the value is that string. -/
def jstrEq (v : Option JVal) (s : String) : Bool :=
  match v with
  | some (.jstr t) => t == s
  | _ => false

/-- `ensure_full_table_ref` (src/handlers/processable_base.py line 102, and
identically in the other handler bases): a reference containing `"."` passes
through, any other is prefixed with the data project. -/
def ensure_full_table_ref (data_project_id : String) (table : String) : String :=
  if table.data.contains '.' then table else data_project_id ++ "." ++ table

/-- `ProcessableBaseHandler._handle_processable_metrics`: required-field
checks, the defensive pipeline check, table qualification, existence-tolerant
sums, the zero-guarded ratio, and the metric emissions. -/
def handle_processable_metrics (env : BQEnv) (run_project_id data_project_id : String)
    (cfg : ProcessableCfg) (decoded : JVal) : HandleRes :=
  let payload := (objGet decoded "payload").getD .null
  if !truthy payload then
    .badRequest "No \x27payload\x27 found in event data." []
  else
    let vars := (objGet payload "variables").getD (.jobj [])
    if !(jstrEq (objGet payload "pipeline_uuid") cfg.pipeline_uuid &&
         jstrEq (objGet payload "status") "COMPLETED") then
      .ok []
    else
      let processable_table := (objGet vars cfg.processable_table_var).getD .null
      let unprocessable_table := (objGet vars cfg.unprocessable_table_var).getD .null
      if !truthy processable_table then
        .badRequest ("No variable \x27" ++ cfg.processable_table_var ++ "\x27 found in payload.") []
      else if !truthy unprocessable_table then
        .badRequest ("No variable \x27" ++ cfg.unprocessable_table_var ++ "\x27 found in payload.") []
      else
        match processable_table, unprocessable_table with
        | .jstr pt, .jstr ut =>
            let full_processable_table := ensure_full_table_ref data_project_id pt
            let full_unprocessable_table := ensure_full_table_ref data_project_id ut
            let total_vl_pago := (env.tableSum full_processable_table).getD 0
            let sum_unprocessable_vl_pago := (env.tableSum full_unprocessable_table).getD 0
            let total_sum := total_vl_pago + sum_unprocessable_vl_pago
            let relative_vl_pago := if total_sum > 0 then total_vl_pago / total_sum else 0
            let partner_value := (objGet vars "partner").getD .null
            if !truthy partner_value then
              .badRequest "Missing required \x27partner\x27 variable in payload." []
            else
              let labels := [("approved", cfg.approved_value), ("partner", pyStr partner_value)]
              match objGet decoded "source_timestamp" with
              | some (.jstr ts) =>
                  let source_timestamp := pyFromIso ts
                  let totalPoint : MetricPoint :=
                    { project := run_project_id,
                      name := "claims/pipeline/processable/vl_pago/total",
                      value := total_vl_pago, labels := labels,
                      timestamp := source_timestamp }
                  let relativePoint : MetricPoint :=
                    { project := run_project_id,
                      name := "claims/pipeline/processable/vl_pago/relative",
                      value := relative_vl_pago, labels := labels,
                      timestamp := source_timestamp }
                  if total_sum > 0 then .ok [totalPoint, relativePoint] else .ok [totalPoint]
              | _ => .exn []
        | _, _ => .exn []

/-- `ProcessableApprovalHandler.match`: a `pipesv2_approval` completion. -/
def processableApprovalMatch (m : JVal) : Bool :=
  let pl := (objGet m "payload").getD (.jobj [])
  jstrEq (objGet pl "pipeline_uuid") "pipesv2_approval" &&
    jstrEq (objGet pl "status") "COMPLETED"

/-- The configuration `ProcessableApprovalHandler.handle` passes to the base
handler. -/
def cfgApproval : ProcessableCfg :=
  { pipeline_uuid := "pipesv2_approval",
    processable_table_var := "processable_claims_input_table",
    unprocessable_table_var := "unprocessable_claims_input_table",
    approved_value := "true" }

/-- `ProcessableApprovalHandler` as a registered handler. -/
def processableApprovalHandler (env : BQEnv) (run_project_id data_project_id : String) :
    MHandler :=
  { name := "ProcessableApprovalHandler",
    matchf := fun m => .ok (processableApprovalMatch m),
    handlef := fun m =>
      handle_processable_metrics env run_project_id data_project_id cfgApproval m }

/-! ## Declarative outcome (spec §4.3 step 4), the refinement target for the
dispatcher's reducing step -/

/-- The handler's `match` raised on this message. -/
def matchRaisedOn (m : JVal) (h : MHandler) : Bool :=
  h.matchf m == MatchRes.exn

/-- The handler's `match` returned `true` on this message. -/
def matchedOn (m : JVal) (h : MHandler) : Bool :=
  h.matchf m == MatchRes.ok true

/-- The matched handlers, in registration order. -/
def matchedOf (hs : List MHandler) (m : JVal) : List MHandler :=
  hs.filter (matchedOn m)

/-- The handler's `handle` raised something other than a bad-request signal. -/
def handleRaisedOn (m : JVal) (h : MHandler) : Bool :=
  match h.handlef m with
  | .exn _ => true
  | _ => false

/-- The message of the bad-request signal the handler's `handle` raised, if
any. -/
def badMsgOn (m : JVal) (h : MHandler) : Option String :=
  match h.handlef m with
  | .badRequest s _ => some s
  | _ => none

/-- The first bad-request message among the matched handlers, in execution
order. -/
def firstBadMsg (hs : List MHandler) (m : JVal) : Option String :=
  ((matchedOf hs m).filterMap (badMsgOn m)).head?

/-- Modelled from the spec: the precedence of terminal outcomes (§4.3 step 4)
stated declaratively — any match error gives 500; else the first bad-request
message in execution order gives 400; else any handler error gives 500; else
204 (zero matches included). -/
def specOutcome (hs : List MHandler) (m : JVal) : Response :=
  if hs.any (matchRaisedOn m) then { body := "Internal Server Error", status := 500 }
  else
    match firstBadMsg hs m with
    | some msg => { body := msg, status := 400 }
    | none =>
        if (matchedOf hs m).any (handleRaisedOn m) then
          { body := "Internal Server Error", status := 500 }
        else { body := "", status := 204 }

/-- The error record `dispatch` accumulates for one matched handler, if any. -/
def errRecOn (m : JVal) (h : MHandler) : Option ErrRec :=
  match h.handlef m with
  | .ok _ => none
  | .badRequest s _ => some (h.name, .bad_request, s)
  | .exn _ => some (h.name, .internal_error, "")

/-- The terminal response of a dispatch run, forgetting the emission trace. -/
def dispatchResp (r : PyResult (Response × List MetricPoint)) : PyResult Response :=
  match r with
  | .ok p => .ok p.1
  | .raised => .raised

/-! ## Concrete fixtures for witnesses and counterexamples -/

/-- A sink that accepts every point (a healthy monitoring backend). -/
def alwaysSink : MetricPoint → Bool := fun _ => true

/-- A sink that rejects every point (a failing monitoring backend). -/
def failingSink : MetricPoint → Bool := fun _ => false

/-- A handler whose `match` raises (the `FailingMatcherHandler` of the
dispatcher tests). -/
def failMatcherHandler : MHandler :=
  { name := "FailingMatcherHandler",
    matchf := fun _ => .exn,
    handlef := fun _ => .ok [] }

/-- A decodable direct-payload message (the dispatcher test fixture). -/
def sampleMsg : JVal :=
  .jobj [("payload", .jobj [("pipeline_uuid", .jstr "test_pipeline"),
                            ("status", .jstr "COMPLETED")]),
         ("source_timestamp", .jstr "2024-01-15T10:30:00Z")]

/-- The variables of the worked scenario: a partner and the two claims-table
references of the approval pipeline. -/
def scenarioVariables : List (String × JVal) :=
  [("partner", .jstr "porto"),
   ("unprocessable_claims_input_table", .jstr "ds.t2"),
   ("processable_claims_input_table", .jstr "ds.t1")]

/-- The worked scenario message: a completed `pipesv2_approval` run. -/
def scenarioMsg : JVal :=
  .jobj [("payload", .jobj [("pipeline_uuid", .jstr "pipesv2_approval"),
                            ("status", .jstr "COMPLETED"),
                            ("variables", .jobj scenarioVariables)]),
         ("source_timestamp", .jstr "2024-01-15T10:30:00Z")]

/-- The scenario message with the required `partner` variable missing. -/
def scenarioMsgNoPartner : JVal :=
  .jobj [("payload", .jobj [("pipeline_uuid", .jstr "pipesv2_approval"),
                            ("status", .jstr "COMPLETED"),
                            ("variables", .jobj
                              [("unprocessable_claims_input_table", .jstr "ds.t2"),
                               ("processable_claims_input_table", .jstr "ds.t1")])]),
         ("source_timestamp", .jstr "2024-01-15T10:30:00Z")]

/-- The scenario message with a falsy (empty) `partner` variable. -/
def scenarioMsgEmptyPartner : JVal :=
  .jobj [("payload", .jobj [("pipeline_uuid", .jstr "pipesv2_approval"),
                            ("status", .jstr "COMPLETED"),
                            ("variables", .jobj
                              [("partner", .jstr ""),
                               ("unprocessable_claims_input_table", .jstr "ds.t2"),
                               ("processable_claims_input_table", .jstr "ds.t1")])]),
         ("source_timestamp", .jstr "2024-01-15T10:30:00Z")]

/-- An analytics store holding only the two scenario tables: the processable
table `ds.t1` and the unprocessable table `ds.t2`, with the given existence
and sums. -/
def scenarioEnv (tp tu : Option ℚ) : BQEnv :=
  ⟨fun t => if t == "ds.t1" then tp else if t == "ds.t2" then tu else none⟩

/-- The scenario's event timestamp, normalised. -/
def scenarioTs : Timestamp := pyFromIso "2024-01-15T10:30:00Z"

/-- The labels every scenario metric carries. -/
def scenarioLabels : List (String × String) :=
  [("approved", "true"), ("partner", "porto")]

/-- The scenario's total-value gauge point. -/
def scenarioTotalPoint (rp : String) (v : ℚ) : MetricPoint :=
  { project := rp, name := "claims/pipeline/processable/vl_pago/total",
    value := v, labels := scenarioLabels, timestamp := scenarioTs }

/-- The scenario's relative-value gauge point. -/
def scenarioRelativePoint (rp : String) (v : ℚ) : MetricPoint :=
  { project := rp, name := "claims/pipeline/processable/vl_pago/relative",
    value := v, labels := scenarioLabels, timestamp := scenarioTs }

/-- A gauge point for generic-handler fixtures. -/
def samplePoint : MetricPoint :=
  { project := "p", name := "m", value := 1, labels := [], timestamp := "t" }

/-- A matched handler whose `handle` raises a bad-request signal. -/
def badReqHandler : MHandler :=
  { name := "BadHandler",
    matchf := fun _ => .ok true,
    handlef := fun _ => .badRequest "boom" [] }

/-- A matched handler whose `handle` succeeds and emits one gauge. -/
def emitHandler : MHandler :=
  { name := "EmitHandler",
    matchf := fun _ => .ok true,
    handlef := fun _ => .ok [samplePoint] }

/-- A wall-clock instant distinct from the sample event's timestamp. -/
def wallTs : Timestamp := "2024-01-15T11:00:00+00:00"

/-- A direct-payload event whose envelope slot holds an empty (falsy)
`message.data`. -/
def emptyDataDirect : JVal :=
  .jobj [("message", .jobj [("data", .jstr "")]),
         ("payload", .jobj []),
         ("source_timestamp", .jstr "2024-01-15T10:30:00Z")]

/-- An event with an empty `message.data` and no direct payload keys. -/
def emptyDataNoPayload : JVal :=
  .jobj [("message", .jobj [("data", .jstr "")])]

/-- A small structured payload with the two required keys. -/
def witnessPayload : JVal :=
  .jobj [("payload", .jobj [("pipeline_uuid", .jstr "pipesv2_approval")]),
         ("source_timestamp", .jstr "2024-01-15T10:30:00Z")]

/-- A character list that does not begin with a decimal digit: the
side condition under which a printed number followed by that list parses
back unambiguously. -/
def noDigitHead : List Char → Bool
  | [] => true
  | c :: _ => !isDigitCh c

/-! # Theorems

First the dispatcher loop characterisations, then the claims. -/

/-- The matcher loop accumulates exactly the raising handlers' names and the
matched handlers, in registration order. -/
theorem runMatchers_eq (hs : List MHandler) (m : JVal) :
    runMatchers hs m = ((hs.filter (matchRaisedOn m)).map MHandler.name, matchedOf hs m) := by
  induction hs with
  | nil => rfl
  | cons h t ih =>
      cases hmr : h.matchf m with
      | ok b =>
          cases b <;>
            simp [runMatchers, ih, matchedOf, List.filter_cons, matchRaisedOn, matchedOn, hmr]
      | exn =>
          simp [runMatchers, ih, matchedOf, List.filter_cons, matchRaisedOn, matchedOn, hmr]

/-- The handler loop emits every matched handler's emissions in execution
order and accumulates exactly the error records. -/
theorem runHandlers_eq (l : List MHandler) (m : JVal) :
    runHandlers l m =
      ((l.map (fun h => (h.handlef m).emits)).flatten, l.filterMap (errRecOn m)) := by
  induction l with
  | nil => rfl
  | cons h t ih =>
      cases hh : h.handlef m <;>
        simp [runHandlers, ih, errRecOn, HandleRes.emits, hh]

/-- A healthy sink never raises. -/
theorem emitSeq_always (sinkOk : MetricPoint → Bool) (hsink : ∀ p, sinkOk p = true)
    (l : List MetricPoint) : emitSeq sinkOk l = .ok () := by
  induction l with
  | nil => rfl
  | cons p t ih => simp [emitSeq, hsink p, ih]

/-- The bad-request records of the handler loop carry exactly the bad-request
messages, in order. -/
theorem firstBad_corr (l : List MHandler) (m : JVal) :
    ((l.filterMap (errRecOn m)).filter (fun r => r.2.1 == ErrKind.bad_request)).head?.map
        (fun r => r.2.2) =
      (l.filterMap (badMsgOn m)).head? := by
  induction l with
  | nil => rfl
  | cons h t ih =>
      cases hh : h.handlef m with
      | ok e =>
          simp only [List.filterMap_cons, errRecOn, badMsgOn, hh]
          exact ih
      | badRequest s e =>
          simp only [List.filterMap_cons, errRecOn, badMsgOn, hh, List.filter_cons]
          rw [if_pos (by decide)]
          rfl
      | exn e =>
          simp only [List.filterMap_cons, errRecOn, badMsgOn, hh, List.filter_cons]
          rw [if_neg (by decide)]
          exact ih

/-- If the handler loop recorded errors but none is a bad request, some
matched handler raised a non-bad-request exception. -/
theorem any_exn_of_errs (l : List MHandler) (m : JVal)
    (hne : l.filterMap (errRecOn m) ≠ [])
    (hnb : (l.filterMap (errRecOn m)).filter (fun r => r.2.1 == ErrKind.bad_request) = []) :
    l.any (handleRaisedOn m) = true := by
  induction l with
  | nil => exact absurd rfl hne
  | cons h t ih =>
      cases hh : h.handlef m with
      | ok e =>
          simp only [List.filterMap_cons, errRecOn, hh] at hne hnb
          simp only [List.any_cons, handleRaisedOn, hh, Bool.false_or]
          exact ih hne hnb
      | badRequest s e =>
          simp only [List.filterMap_cons, errRecOn, hh, List.filter_cons] at hnb
          rw [if_pos (by decide)] at hnb
          exact absurd hnb (by simp)
      | exn e =>
          simp only [List.any_cons, handleRaisedOn, hh, Bool.true_or]

/-- If the handler loop recorded no error, no matched handler raised and no
bad-request message exists. -/
theorem no_errs_clean (l : List MHandler) (m : JVal)
    (h0 : l.filterMap (errRecOn m) = []) :
    l.any (handleRaisedOn m) = false ∧ l.filterMap (badMsgOn m) = [] := by
  induction l with
  | nil => exact ⟨rfl, rfl⟩
  | cons h t ih =>
      cases hh : h.handlef m with
      | ok e =>
          simp only [List.filterMap_cons, errRecOn, hh] at h0
          obtain ⟨h1, h2⟩ := ih h0
          simp only [List.any_cons, handleRaisedOn, hh, Bool.false_or, h1,
            List.filterMap_cons, badMsgOn, h2]
          exact ⟨trivial, trivial⟩
      | badRequest s e =>
          simp only [List.filterMap_cons, errRecOn, hh] at h0
          exact absurd h0 (by simp)
      | exn e =>
          simp only [List.filterMap_cons, errRecOn, hh] at h0
          exact absurd h0 (by simp)

/-- `dispatch` on a decodable message with a healthy sink, unfolded past the
loops and the gauge emission. -/
theorem dispatch_decoded (hs : List MHandler) (sinkOk : MetricPoint → Bool) (pid : String)
    (now : Timestamp) (data msg : JVal) (hdec : decode_message data = some msg)
    (hsink : ∀ p, sinkOk p = true) :
    dispatch hs sinkOk pid now data =
      (let me := runMatchers hs msg
       let he := runHandlers me.2 msg
       let trace := he.1 ++ failureGauges pid now me.1 he.2
       if !me.1.isEmpty then
         .ok ({ body := "Internal Server Error", status := 500 }, trace)
       else if !he.2.isEmpty then
         match he.2.filter (fun r => r.2.1 == ErrKind.bad_request) with
         | r :: _ => .ok ({ body := r.2.2, status := 400 }, trace)
         | [] => .ok ({ body := "Internal Server Error", status := 500 }, trace)
       else if me.2.isEmpty then
         .ok ({ body := "", status := 204 }, trace)
       else
         .ok ({ body := "", status := 204 }, trace)) := by
  simp only [dispatch, hdec, emitSeq_always sinkOk hsink]

/-- On a decodable message with a healthy sink, `dispatch` returns a response
together with the full emission trace: every matched handler's emissions in
execution order, then the failure gauges. -/
theorem dispatch_ok_trace (hs : List MHandler) (pid : String) (now : Timestamp)
    (data msg : JVal) (hdec : decode_message data = some msg) :
    ∃ r, dispatch hs alwaysSink pid now data =
      .ok (r, ((matchedOf hs msg).map (fun h => (h.handlef msg).emits)).flatten ++
        failureGauges pid now ((hs.filter (matchRaisedOn msg)).map MHandler.name)
          ((matchedOf hs msg).filterMap (errRecOn msg))) := by
  rw [dispatch_decoded hs alwaysSink pid now data msg hdec (fun _ => rfl)]
  simp only [runMatchers_eq, runHandlers_eq]
  split
  · exact ⟨_, rfl⟩
  · split
    · split
      · exact ⟨_, rfl⟩
      · exact ⟨_, rfl⟩
    · split
      · exact ⟨_, rfl⟩
      · exact ⟨_, rfl⟩

/-- Every point list a successful processable-handler run returns is either
empty or timestamped with the event's parsed `source_timestamp`. -/
theorem handle_ok_ts (env : BQEnv) (rp dp : String) (cfg : ProcessableCfg) (msg : JVal)
    (pts : List MetricPoint) (h : handle_processable_metrics env rp dp cfg msg = .ok pts) :
    pts = [] ∨ ∃ s, objGet msg "source_timestamp" = some (.jstr s) ∧
      ∀ pt ∈ pts, pt.timestamp = pyFromIso s := by
  simp only [handle_processable_metrics] at h
  repeat' split at h
  all_goals cases h
  all_goals try (left; rfl)
  all_goals rename_i heq _
  all_goals right
  all_goals refine ⟨_, heq, ?_⟩
  all_goals intro pt hpt
  all_goals simp only [List.mem_cons, List.mem_singleton] at hpt
  · rcases hpt with rfl | rfl | h
    · rfl
    · rfl
    · exact absurd h (List.not_mem_nil _)
  · rcases hpt with rfl | h
    · rfl
    · exact absurd h (List.not_mem_nil _)

/-- A failing processable-handler run emits nothing: both required-field
signals and unexpected exceptions happen before any emission. -/
theorem handle_fail_empty (env : BQEnv) (rp dp : String) (cfg : ProcessableCfg) (msg : JVal) :
    (∀ s e, handle_processable_metrics env rp dp cfg msg = .badRequest s e → e = []) ∧
      (∀ e, handle_processable_metrics env rp dp cfg msg = .exn e → e = []) := by
  constructor
  · intro s e h
    simp only [handle_processable_metrics] at h
    repeat' split at h
    all_goals cases h
    all_goals rfl
  · intro e h
    simp only [handle_processable_metrics] at h
    repeat' split at h
    all_goals cases h
    all_goals rfl

/-- C1.  For every decodable event, the accumulating dispatcher's terminal
outcome follows the spec's precedence exactly: any raising matcher gives 500;
otherwise the first bad-request message in execution order gives 400;
otherwise any other handler exception gives 500; otherwise — zero matches
included — 204 with empty body. -/
theorem dispatch_terminal_precedence (hs : List MHandler) (pid : String) (now : Timestamp)
    (data msg : JVal) (hdec : decode_message data = some msg) :
    dispatchResp (dispatch hs alwaysSink pid now data) = .ok (specOutcome hs msg) := by
  rw [dispatch_decoded hs alwaysSink pid now data msg hdec (fun _ => rfl)]
  simp only [runMatchers_eq, runHandlers_eq]
  cases hmr : hs.any (matchRaisedOn msg) with
  | true =>
      rw [if_pos]
      · simp [dispatchResp, specOutcome, hmr]
      · simpa using hmr
  | false =>
    rw [if_neg]
    swap
    · simpa using hmr
    by_cases herr : (matchedOf hs msg).filterMap (errRecOn msg) = []
    · rw [if_neg (by simp [herr])]
      obtain ⟨h1, h2⟩ := no_errs_clean _ _ herr
      rw [ite_self]
      simp [dispatchResp, specOutcome, hmr, firstBadMsg, h1, h2]
    · rw [if_pos (by simp [herr])]
      cases hfb : ((matchedOf hs msg).filterMap (errRecOn msg)).filter
          (fun r => r.2.1 == ErrKind.bad_request) with
      | nil =>
          have hexn := any_exn_of_errs _ _ herr hfb
          have hfirst : firstBadMsg hs msg = none := by
            have := firstBad_corr (matchedOf hs msg) msg
            rw [hfb] at this
            simpa [firstBadMsg] using this.symm
          simp [dispatchResp, specOutcome, hmr, hfirst, hexn]
      | cons r t =>
          have hfirst : firstBadMsg hs msg = some r.2.2 := by
            have := firstBad_corr (matchedOf hs msg) msg
            rw [hfb] at this
            simpa [firstBadMsg] using this.symm
          simp [dispatchResp, specOutcome, hmr, hfirst]

/-- C1 witness: the precedence theorem applied to a concrete raising matcher
on the sample event. -/
theorem dispatch_terminal_precedence_witness :
    dispatchResp (dispatch [failMatcherHandler] alwaysSink "p" "t" sampleMsg) =
      .ok (specOutcome [failMatcherHandler] sampleMsg) :=
  dispatch_terminal_precedence [failMatcherHandler] "p" "t" sampleMsg sampleMsg rfl

/-- C2 counterexample: on a decodable message, when the matcher of the only
registered handler raises and the sink then rejects the bookkeeping gauge,
`dispatch` raises to its caller instead of swallowing the sink failure. -/
theorem dispatch_bookkeeping_sink_failure_raises :
    decode_message sampleMsg = some sampleMsg ∧
      dispatch [failMatcherHandler] failingSink "p" "t" sampleMsg = .raised :=
  ⟨rfl, rfl⟩

/-- C2 as amended: for every set of registered handlers and every decodable
event — one on which `decode_message` returns normally (`decodeSafe`) and
yields a canonical message — `dispatch` returns exactly one terminal outcome
with status in `{204, 400, 500}` provided the metrics sink accepts every
bookkeeping emission; a rejected bookkeeping emission instead propagates as
an exception. -/
theorem dispatch_totality_healthy_sink (hs : List MHandler) (sinkOk : MetricPoint → Bool)
    (pid : String) (now : Timestamp) (data msg : JVal) (hsink : ∀ p, sinkOk p = true)
    (hsafe : decodeSafe data = true) (hdec : decode_message data = some msg) :
    ∃ r tr, dispatch hs sinkOk pid now data = .ok (r, tr) ∧
      (r.status = 204 ∨ r.status = 400 ∨ r.status = 500) := by
  rw [dispatch_decoded hs sinkOk pid now data msg hdec hsink]
  simp only [runMatchers_eq, runHandlers_eq]
  split
  · exact ⟨_, _, rfl, .inr (.inr rfl)⟩
  · split
    · split
      · exact ⟨_, _, rfl, .inr (.inl rfl)⟩
      · exact ⟨_, _, rfl, .inr (.inr rfl)⟩
    · split
      · exact ⟨_, _, rfl, .inl rfl⟩
      · exact ⟨_, _, rfl, .inl rfl⟩

/-- C2 witness: totality at a concrete handler set, sink and decodable
event, with both decodability hypotheses evaluated. -/
theorem dispatch_totality_healthy_sink_witness :
    decodeSafe sampleMsg = true ∧ decode_message sampleMsg = some sampleMsg ∧
    (∃ r tr, dispatch [failMatcherHandler] alwaysSink "p" "t" sampleMsg = .ok (r, tr) ∧
      (r.status = 204 ∨ r.status = 400 ∨ r.status = 500)) :=
  ⟨rfl, rfl, dispatch_totality_healthy_sink [failMatcherHandler] alwaysSink "p" "t"
    sampleMsg sampleMsg (fun _ => rfl) rfl rfl⟩

/-- C3.  Failure isolation in the accumulating dispatcher: if a matched
handler A registered before a matched handler B raises during `handle`
(either signal), while B's `handle` succeeds, B's metric emissions still
occur in the emission trace of the terminal outcome. -/
theorem handler_failure_isolation (l1 l2 l3 : List MHandler) (A B : MHandler) (pid : String)
    (now : Timestamp) (data msg : JVal) (es : List MetricPoint)
    (hdec : decode_message data = some msg)
    (_hA : A.matchf msg = .ok true) (hB : B.matchf msg = .ok true)
    (_hAfail : (∃ s e, A.handlef msg = .badRequest s e) ∨ (∃ e, A.handlef msg = .exn e))
    (hBok : B.handlef msg = .ok es) :
    ∃ r tr, dispatch (l1 ++ A :: (l2 ++ B :: l3)) alwaysSink pid now data = .ok (r, tr) ∧
      es <:+: tr := by
  obtain ⟨r, hr⟩ := dispatch_ok_trace (l1 ++ A :: (l2 ++ B :: l3)) pid now data msg hdec
  refine ⟨r, _, hr, ?_⟩
  have hBmem : B ∈ matchedOf (l1 ++ A :: (l2 ++ B :: l3)) msg := by
    rw [matchedOf, List.mem_filter]
    exact ⟨by simp, by simp [matchedOn, hB]⟩
  obtain ⟨s, t, hst⟩ := List.append_of_mem hBmem
  rw [hst]
  have h1 : es <:+: ((s ++ B :: t).map (fun h => (h.handlef msg).emits)).flatten := by
    rw [List.map_append, List.map_cons, List.flatten_append, List.flatten_cons, hBok]
    exact ⟨(s.map (fun h => (h.handlef msg).emits)).flatten,
      (t.map (fun h => (h.handlef msg).emits)).flatten,
      by simp [HandleRes.emits, List.append_assoc]⟩
  exact h1.trans (List.prefix_append _ _).isInfix

/-- C3 witness: isolation applied to a concrete bad-request handler followed
by a concrete emitting handler. -/
theorem handler_failure_isolation_witness :
    ∃ r tr, dispatch ([] ++ badReqHandler :: ([] ++ emitHandler :: [])) alwaysSink "p" "t"
        sampleMsg = .ok (r, tr) ∧ [samplePoint] <:+: tr :=
  handler_failure_isolation [] [] [] badReqHandler emitHandler "p" "t" sampleMsg sampleMsg
    [samplePoint] rfl rfl rfl (.inl ⟨"boom", [], rfl⟩) rfl

/-- C4 counterexample: the `handler_matcher_failure` gauge the dispatcher
emits for a raising matcher is timestamped with the wall clock captured at
dispatch start, not with the event's `source_timestamp`. -/
theorem failure_gauge_wall_clock_timestamp :
    objGet sampleMsg "source_timestamp" = some (.jstr "2024-01-15T10:30:00Z") ∧
      dispatch [failMatcherHandler] alwaysSink "proj" wallTs sampleMsg =
        .ok ({ body := "Internal Server Error", status := 500 },
          [mkFailureGauge "proj" wallTs "handler_matcher_failure" "FailingMatcherHandler"]) ∧
      (mkFailureGauge "proj" wallTs "handler_matcher_failure"
          "FailingMatcherHandler").timestamp ≠ pyFromIso "2024-01-15T10:30:00Z" :=
  ⟨rfl, rfl, by decide⟩

/-- C4 as amended: every metric point the processable handler emits carries
the originating event's parsed `source_timestamp`; the dispatcher's
`handler_matcher_failure` and `handler_execution_failure` gauges instead
carry the wall-clock timestamp captured at dispatch start. -/
theorem metric_timestamp_policy :
    (∀ (env : BQEnv) (rp dp : String) (cfg : ProcessableCfg) (msg : JVal) (pt : MetricPoint),
        pt ∈ (handle_processable_metrics env rp dp cfg msg).emits →
          ∃ s, objGet msg "source_timestamp" = some (.jstr s) ∧
            pt.timestamp = pyFromIso s) ∧
      (∀ (pid : String) (now : Timestamp) (a : List String) (b : List ErrRec)
          (pt : MetricPoint), pt ∈ failureGauges pid now a b → pt.timestamp = now) := by
  constructor
  · intro env rp dp cfg msg pt hpt
    cases hres : handle_processable_metrics env rp dp cfg msg with
    | ok pts =>
        rw [hres] at hpt
        simp only [HandleRes.emits] at hpt
        rcases handle_ok_ts env rp dp cfg msg pts hres with rfl | ⟨s, hs, hall⟩
        · exact absurd hpt (List.not_mem_nil _)
        · exact ⟨s, hs, hall pt hpt⟩
    | badRequest s e =>
        rw [(handle_fail_empty env rp dp cfg msg).1 s e hres] at hres
        rw [hres] at hpt
        exact absurd hpt (List.not_mem_nil _)
    | exn e =>
        rw [(handle_fail_empty env rp dp cfg msg).2 e hres] at hres
        rw [hres] at hpt
        exact absurd hpt (List.not_mem_nil _)
  · intro pid now a b pt hpt
    rw [failureGauges, List.mem_append] at hpt
    rcases hpt with hpt | hpt <;> obtain ⟨x, _, rfl⟩ := List.mem_map.mp hpt <;> rfl

/-- C4 witness: the amended policy at a concrete handler run and a concrete
failure gauge. -/
theorem metric_timestamp_policy_witness :
    (∃ s, objGet scenarioMsg "source_timestamp" = some (.jstr s) ∧
        (scenarioTotalPoint "rp" 4).timestamp = pyFromIso s) ∧
      (mkFailureGauge "p" "t" "handler_matcher_failure" "H").timestamp = "t" := by
  have hh : handle_processable_metrics (scenarioEnv (some 4) none) "rp" "dp" cfgApproval
      scenarioMsg = .ok [scenarioTotalPoint "rp" 4, scenarioRelativePoint "rp" 1] := by
    show (if (4 : ℚ) + 0 > 0 then
            HandleRes.ok [scenarioTotalPoint "rp" 4,
              scenarioRelativePoint "rp" (if (4 : ℚ) + 0 > 0 then 4 / (4 + 0) else 0)]
          else HandleRes.ok [scenarioTotalPoint "rp" 4]) =
        .ok [scenarioTotalPoint "rp" 4, scenarioRelativePoint "rp" 1]
    norm_num
  refine ⟨metric_timestamp_policy.1 (scenarioEnv (some 4) none) "rp" "dp" cfgApproval
      scenarioMsg (scenarioTotalPoint "rp" 4) ?_,
    metric_timestamp_policy.2 "p" "t" ["H"] [] _ (by simp [failureGauges])⟩
  rw [hh]
  simp [HandleRes.emits]

/-- C9.  A matched, otherwise valid event whose variables lack the `partner`
key — or carry a falsy one — makes the processable handler raise the
bad-request signal with exactly the documented message, and dispatch returns
400 with that message as the body (plus the execution-failure gauge). -/
theorem missing_partner_yields_400 (env : BQEnv) (rp dp pid : String) (now : Timestamp) :
    dispatch [processableApprovalHandler env rp dp] alwaysSink pid now scenarioMsgNoPartner =
        .ok ({ body := "Missing required \x27partner\x27 variable in payload.", status := 400 },
          [mkFailureGauge pid now "handler_execution_failure" "ProcessableApprovalHandler"]) ∧
      dispatch [processableApprovalHandler env rp dp] alwaysSink pid now
          scenarioMsgEmptyPartner =
        .ok ({ body := "Missing required \x27partner\x27 variable in payload.", status := 400 },
          [mkFailureGauge pid now "handler_execution_failure" "ProcessableApprovalHandler"]) :=
  ⟨rfl, rfl⟩

/-- C5 counterexample: a bare `dataset.table` reference — which contains a
dot — passes through `ensure_full_table_ref` unchanged rather than being
prefixed with the default data project. -/
theorem table_ref_dataset_dot_table_unchanged :
    ensure_full_table_ref "proj" "ds.t1" = "ds.t1" ∧
      ensure_full_table_ref "proj" "ds.t1" ≠ "proj.ds.t1" :=
  ⟨rfl, by decide⟩

/-- C5 as amended: a table reference containing no separator at all is
prefixed with the configured default data project; any reference already
containing a separator — a bare `dataset.table` included — passes through
unchanged. -/
theorem table_qualification_separator_rule :
    (∀ p t : String, t.data.contains '.' = false →
        ensure_full_table_ref p t = p ++ "." ++ t) ∧
      (∀ p a b : String, ensure_full_table_ref p (a ++ "." ++ b) = a ++ "." ++ b) := by
  constructor
  · intro p t ht
    rw [ensure_full_table_ref, if_neg (by rw [ht]; exact Bool.false_ne_true)]
  · intro p a b
    rw [ensure_full_table_ref, if_pos]
    rw [show (a ++ "." ++ b).data = a.data ++ '.' :: b.data by simp [String.data_append]]
    simp [List.elem_eq_mem, List.contains]

/-- C5 witness: the qualification rule at a separator-free reference. -/
theorem table_qualification_separator_rule_witness :
    ("table1" : String).data.contains '.' = false ∧
      ensure_full_table_ref "proj" "table1" = "proj" ++ "." ++ "table1" :=
  ⟨rfl, table_qualification_separator_rule.1 "proj" "table1" rfl⟩

/-- C6.  Existence-tolerant default: with the processable table absent and
the unprocessable table summing to any positive value, the approval handler
substitutes 0.0 for the missing sum and raises no error — dispatch emits
total = 0.0 and relative = 0.0 and returns 204. -/
theorem processable_absent_table_defaults (q : ℚ) (hq : 0 < q) (rp dp pid : String)
    (now : Timestamp) :
    dispatch [processableApprovalHandler (scenarioEnv none (some q)) rp dp] alwaysSink pid now
        scenarioMsg =
      .ok ({ body := "", status := 204 },
        [scenarioTotalPoint rp 0, scenarioRelativePoint rp 0]) := by
  have hq2 : (0 : ℚ) + q > 0 := by linarith
  have hh : handle_processable_metrics (scenarioEnv none (some q)) rp dp cfgApproval
      scenarioMsg = .ok [scenarioTotalPoint rp 0, scenarioRelativePoint rp 0] := by
    show (let total : ℚ := ((none : Option ℚ)).getD 0
          let unp : ℚ := ((some q : Option ℚ)).getD 0
          let rel := if total + unp > 0 then total / (total + unp) else 0
          if total + unp > 0 then
            HandleRes.ok [scenarioTotalPoint rp total, scenarioRelativePoint rp rel]
          else HandleRes.ok [scenarioTotalPoint rp total]) =
        .ok [scenarioTotalPoint rp 0, scenarioRelativePoint rp 0]
    simp [hq2, hq]
  simp [dispatch, runMatchers, runHandlers, hh, failureGauges, emitSeq,
    show decode_message scenarioMsg = some scenarioMsg from rfl,
    show processableApprovalMatch scenarioMsg = true from rfl,
    processableApprovalHandler]

/-- C6 witness: the default at the scenario's sum of 4000.0. -/
theorem processable_absent_table_defaults_witness :
    (0 : ℚ) < 4000 ∧
      dispatch [processableApprovalHandler (scenarioEnv none (some 4000)) "rp" "dp"]
          alwaysSink "pid" "now" scenarioMsg =
        .ok ({ body := "", status := 204 },
          [scenarioTotalPoint "rp" 0, scenarioRelativePoint "rp" 0]) :=
  ⟨by norm_num, processable_absent_table_defaults 4000 (by norm_num) "rp" "dp" "pid" "now"⟩

/-- C7 counterexample: with both claims tables absent the denominator is
zero, and the handler emits no relative point at all — there is no emitted
relative value carrying the sentinel. -/
theorem relative_metric_skipped_on_zero_denominator :
    handle_processable_metrics (scenarioEnv none none) "rp" "dp" cfgApproval scenarioMsg =
        .ok [scenarioTotalPoint "rp" 0] ∧
      ∀ pt ∈ (handle_processable_metrics (scenarioEnv none none) "rp" "dp" cfgApproval
          scenarioMsg).emits,
        pt.name ≠ "claims/pipeline/processable/vl_pago/relative" := by
  have h1 : handle_processable_metrics (scenarioEnv none none) "rp" "dp" cfgApproval
      scenarioMsg = .ok [scenarioTotalPoint "rp" 0] := by
    show (if (0 : ℚ) + 0 > 0 then
            HandleRes.ok [scenarioTotalPoint "rp" 0,
              scenarioRelativePoint "rp" (if (0 : ℚ) + 0 > 0 then 0 / (0 + 0) else 0)]
          else HandleRes.ok [scenarioTotalPoint "rp" 0]) = .ok [scenarioTotalPoint "rp" 0]
    norm_num
  refine ⟨h1, ?_⟩
  rw [h1]
  intro pt hpt
  simp only [HandleRes.emits, List.mem_singleton] at hpt
  subst hpt
  decide

/-- C7 as amended: the ratio computation is exact and zero-guarded — when the
denominator (processable plus unprocessable sum) is positive, the handler
emits the relative metric with value numerator/denominator; when the
denominator is zero the computed ratio is the sentinel 0.0 but the relative
point is skipped, so only the total metric is emitted. -/
theorem processable_ratio_zero_guard (tp tu : Option ℚ) (rp dp : String) :
    (0 < tp.getD 0 + tu.getD 0 →
        handle_processable_metrics (scenarioEnv tp tu) rp dp cfgApproval scenarioMsg =
          .ok [scenarioTotalPoint rp (tp.getD 0),
            scenarioRelativePoint rp (tp.getD 0 / (tp.getD 0 + tu.getD 0))]) ∧
      (tp.getD 0 + tu.getD 0 = 0 →
        handle_processable_metrics (scenarioEnv tp tu) rp dp cfgApproval scenarioMsg =
          .ok [scenarioTotalPoint rp (tp.getD 0)]) := by
  have hshape : handle_processable_metrics (scenarioEnv tp tu) rp dp cfgApproval scenarioMsg =
      (if tp.getD 0 + tu.getD 0 > 0 then
         HandleRes.ok [scenarioTotalPoint rp (tp.getD 0),
           scenarioRelativePoint rp
             (if tp.getD 0 + tu.getD 0 > 0 then tp.getD 0 / (tp.getD 0 + tu.getD 0) else 0)]
       else HandleRes.ok [scenarioTotalPoint rp (tp.getD 0)]) := rfl
  constructor
  · intro h
    rw [hshape, if_pos h, if_pos h]
  · intro h
    rw [hshape, if_neg (by rw [h]; exact lt_irrefl 0)]

/-- C7 witness: the guarded ratio at the worked sums 1000 and 4000. -/
theorem processable_ratio_zero_guard_witness :
    (0 : ℚ) < (some (1000 : ℚ)).getD 0 + (some (4000 : ℚ)).getD 0 ∧
      handle_processable_metrics (scenarioEnv (some 1000) (some 4000)) "rp" "dp" cfgApproval
          scenarioMsg =
        .ok [scenarioTotalPoint "rp" ((some (1000 : ℚ)).getD 0),
          scenarioRelativePoint "rp"
            ((some (1000 : ℚ)).getD 0 / ((some (1000 : ℚ)).getD 0 + (some (4000 : ℚ)).getD 0))] :=
  ⟨by norm_num,
    (processable_ratio_zero_guard (some 1000) (some 4000) "rp" "dp").1 (by norm_num)⟩

/-- C10.  `decode_message` validates required keys only in the direct-payload
branch: a truthy envelope string that decodes is returned as-is whatever its
shape; an empty (falsy) `message.data` is skipped in favour of the
direct-payload check, which accepts the sample with both keys and rejects the
one without them. -/
theorem decode_envelope_validation_scope :
    (∀ (s : String) (v : JVal), truthy (.jstr s) = true → decodeChain s.data = some v →
        decode_message (.jobj [("message", .jobj [("data", .jstr s)])]) = some v) ∧
      decode_message emptyDataDirect = some emptyDataDirect ∧
      decode_message emptyDataNoPayload = none := by
  refine ⟨?_, rfl, rfl⟩
  intro s v hs hv
  show (if truthy (.jstr s) then decodeChain s.data else none) = some v
  rw [hs]
  exact hv

/-- C10 witness: an envelope decoding to the bare number 5 — no `payload`
key, no mapping — is still returned as the canonical message. -/
theorem decode_envelope_validation_scope_witness :
    truthy (.jstr "NQ==") = true ∧ decodeChain ("NQ==" : String).data = some (.jnum 5) ∧
      decode_message (.jobj [("message", .jobj [("data", .jstr "NQ==")])]) = some (.jnum 5) :=
  ⟨rfl, rfl, decode_envelope_validation_scope.1 "NQ==" (.jnum 5) rfl rfl⟩

theorem charSextet_sextetChar : ∀ n, n < 64 → charSextet (sextetChar n) = some n := by decide

theorem sextetChar_ne_pad : ∀ n, n < 64 → sextetChar n ≠ '=' := by decide

theorem b64DecodeBytes_quad (c1 c2 c3 c4 : Char) (h3 : c3 ≠ '=') (h4 : c4 ≠ '=') :
    b64DecodeBytes [c1, c2, c3, c4] = (do
      let s1 ← charSextet c1
      let s2 ← charSextet c2
      let s3 ← charSextet c3
      let s4 ← charSextet c4
      let tail ← b64DecodeBytes []
      pure ((s1 * 4 + s2 / 16) :: (s2 % 16 * 16 + s3 / 4) :: (s3 % 4 * 64 + s4) :: tail)) := by
  rw [b64DecodeBytes.eq_def]
  split
  · simp_all
  · rename_i heq
    injection heq with _ heq
    injection heq with _ heq
    injection heq with h3eq _
    exact absurd h3eq h3
  · rename_i heq
    injection heq with _ heq
    injection heq with _ heq
    injection heq with _ heq
    injection heq with h4eq _
    exact absurd h4eq h4
  · rename_i heq
    injection heq with e1 heq
    injection heq with e2 heq
    injection heq with e3 heq
    injection heq with e4 e5
    subst e1; subst e2; subst e3; subst e4; subst e5
    rfl
  · rename_i hno
    exact absurd rfl (hno c1 c2 c3 c4 [])

theorem b64DecodeBytes_triple (c1 c2 c3 : Char) (h3 : c3 ≠ '=') :
    b64DecodeBytes [c1, c2, c3, '='] = (do
      let s1 ← charSextet c1
      let s2 ← charSextet c2
      let s3 ← charSextet c3
      pure [s1 * 4 + s2 / 16, s2 % 16 * 16 + s3 / 4]) := by
  rw [b64DecodeBytes.eq_def]
  split
  · simp_all
  · rename_i heq
    injection heq with _ heq
    injection heq with _ heq
    injection heq with h3eq _
    exact absurd h3eq h3
  · rename_i heq
    injection heq with e1 heq
    injection heq with e2 heq
    injection heq with e3 _
    subst e1; subst e2; subst e3
    rfl
  · rename_i hA hB heq
    injection heq with _ heq
    injection heq with _ heq
    injection heq with _ heq
    injection heq with e4 e5
    exact (hB e4.symm e5.symm).elim
  · rename_i hno
    exact absurd rfl (hno c1 c2 c3 '=' [])

theorem b64DecodeBytes_cons5 (c1 c2 c3 c4 c5 : Char) (rest : List Char) :
    b64DecodeBytes (c1 :: c2 :: c3 :: c4 :: c5 :: rest) = (do
      let s1 ← charSextet c1
      let s2 ← charSextet c2
      let s3 ← charSextet c3
      let s4 ← charSextet c4
      let tail ← b64DecodeBytes (c5 :: rest)
      pure ((s1 * 4 + s2 / 16) :: (s2 % 16 * 16 + s3 / 4) :: (s3 % 4 * 64 + s4) :: tail)) := by
  rw [b64DecodeBytes.eq_def]
  split
  · simp_all
  · rename_i heq
    injection heq with _ heq
    injection heq with _ heq
    injection heq with _ heq
    injection heq with _ e5
    exact absurd e5 (List.cons_ne_nil _ _)
  · rename_i heq
    injection heq with _ heq
    injection heq with _ heq
    injection heq with _ heq
    injection heq with _ e5
    exact absurd e5 (List.cons_ne_nil _ _)
  · rename_i heq
    injection heq with e1 heq
    injection heq with e2 heq
    injection heq with e3 heq
    injection heq with e4 e5
    subst e1; subst e2; subst e3; subst e4; subst e5
    rfl
  · rename_i hno
    exact absurd rfl (hno c1 c2 c3 c4 (c5 :: rest))

theorem b64_decode_encode : ∀ l : List Nat, (∀ b ∈ l, b < 256) →
    b64DecodeBytes (b64EncodeBytes l) = some l
  | [], _ => rfl
  | [b1], hb => by
      have h1 : b1 < 256 := hb b1 (by simp)
      simp only [b64EncodeBytes, b64DecodeBytes]
      rw [charSextet_sextetChar _ (by omega : b1 / 4 < 64),
        charSextet_sextetChar _ (by omega : b1 % 4 * 16 < 64)]
      simp
      omega
  | [b1, b2], hb => by
      have h1 : b1 < 256 := hb b1 (by simp)
      have h2 : b2 < 256 := hb b2 (by simp)
      simp only [b64EncodeBytes]
      rw [b64DecodeBytes_triple _ _ _ (sextetChar_ne_pad _ (by omega : b2 % 16 * 4 < 64))]
      rw [charSextet_sextetChar _ (by omega : b1 / 4 < 64),
        charSextet_sextetChar _ (by omega : b1 % 4 * 16 + b2 / 16 < 64),
        charSextet_sextetChar _ (by omega : b2 % 16 * 4 < 64)]
      simp
      omega
  | b1 :: b2 :: b3 :: rest, hb => by
      have h1 : b1 < 256 := hb b1 (by simp)
      have h2 : b2 < 256 := hb b2 (by simp)
      have h3 : b3 < 256 := hb b3 (by simp)
      have ih := b64_decode_encode rest (fun b hbm => hb b (by simp [hbm]))
      have e1 : b1 / 4 < 64 := by omega
      have e2 : b1 % 4 * 16 + b2 / 16 < 64 := by omega
      have e3 : b2 % 16 * 4 + b3 / 64 < 64 := by omega
      have e4 : b3 % 64 < 64 := by omega
      cases hrest : rest with
      | nil =>
          rw [hrest] at ih
          simp only [b64EncodeBytes]
          rw [b64DecodeBytes_quad _ _ _ _ (sextetChar_ne_pad _ e3) (sextetChar_ne_pad _ e4)]
          rw [charSextet_sextetChar _ e1, charSextet_sextetChar _ e2,
            charSextet_sextetChar _ e3, charSextet_sextetChar _ e4,
            show b64DecodeBytes [] = some [] from rfl]
          simp
          omega
      | cons x xs =>
          rw [hrest] at ih
          have hshape : ∃ d1 d2 d3 d4 drest,
              b64EncodeBytes (x :: xs) = d1 :: d2 :: d3 :: d4 :: drest := by
            cases xs with
            | nil => exact ⟨_, _, _, _, _, rfl⟩
            | cons y ys =>
                cases ys with
                | nil => exact ⟨_, _, _, _, _, rfl⟩
                | cons z zs => exact ⟨_, _, _, _, _, rfl⟩
          obtain ⟨d1, d2, d3, d4, drest, hd⟩ := hshape
          rw [hd] at ih
          simp only [b64EncodeBytes, hd]
          rw [b64DecodeBytes_cons5, charSextet_sextetChar _ e1, charSextet_sextetChar _ e2,
            charSextet_sextetChar _ e3, charSextet_sextetChar _ e4, ih]
          simp
          omega

theorem charValidNat (c : Char) : c.toNat < 55296 ∨ (57343 < c.toNat ∧ c.toNat < 1114112) := by
  rcases c.valid with h | ⟨h1, h2⟩
  · exact Or.inl h
  · exact Or.inr ⟨h1, h2⟩

theorem utf8EncodeChar_lt (c : Char) : ∀ b ∈ utf8EncodeChar c, b < 256 := by
  have hv : c.toNat < 1114112 := by
    rcases charValidNat c with h | ⟨_, h2⟩ <;> omega
  intro b hb
  simp only [utf8EncodeChar] at hb
  by_cases h1 : c.toNat < 128
  · rw [if_pos h1] at hb
    simp only [List.mem_singleton] at hb
    omega
  · rw [if_neg h1] at hb
    by_cases h2 : c.toNat < 2048
    · rw [if_pos h2] at hb
      simp only [List.mem_cons, List.mem_singleton, List.not_mem_nil, or_false] at hb
      rcases hb with rfl | rfl <;> omega
    · rw [if_neg h2] at hb
      by_cases h3 : c.toNat < 65536
      · rw [if_pos h3] at hb
        simp only [List.mem_cons, List.mem_singleton, List.not_mem_nil, or_false] at hb
        rcases hb with rfl | rfl | rfl <;> omega
      · rw [if_neg h3] at hb
        simp only [List.mem_cons, List.mem_singleton, List.not_mem_nil, or_false] at hb
        rcases hb with rfl | rfl | rfl | rfl <;> omega

theorem utf8Decode_cons (b1 : Nat) (rest : List Nat) :
    utf8Decode (b1 :: rest) =
      (if b1 < 128 then
        (utf8Decode rest).map (fun t => Char.ofNat b1 :: t)
      else if 194 ≤ b1 && b1 < 224 then
        match rest with
        | b2 :: rest2 =>
            if isCont b2 then
              (utf8Decode rest2).map (fun t => Char.ofNat ((b1 - 192) * 64 + (b2 - 128)) :: t)
            else none
        | [] => none
      else if 224 ≤ b1 && b1 < 240 then
        match rest with
        | b2 :: b3 :: rest3 =>
            let n := (b1 - 224) * 4096 + (b2 - 128) * 64 + (b3 - 128)
            if isCont b2 && isCont b3 && decide (2048 ≤ n) &&
                !(decide (55296 ≤ n) && decide (n < 57344)) then
              (utf8Decode rest3).map (fun t => Char.ofNat n :: t)
            else none
        | _ => none
      else if 240 ≤ b1 && b1 < 245 then
        match rest with
        | b2 :: b3 :: b4 :: rest4 =>
            let n := (b1 - 240) * 262144 + (b2 - 128) * 4096 + (b3 - 128) * 64 + (b4 - 128)
            if isCont b2 && isCont b3 && isCont b4 && decide (65536 ≤ n) &&
                decide (n < 1114112) then
              (utf8Decode rest4).map (fun t => Char.ofNat n :: t)
            else none
        | _ => none
      else none) := by
  cases rest with
  | nil => rfl
  | cons b2 rest2 =>
      cases rest2 with
      | nil => rfl
      | cons b3 rest3 =>
          cases rest3 with
          | nil => rfl
          | cons b4 rest4 => rfl

theorem utf8_rt : ∀ s : List Char, utf8Decode (utf8Encode s) = some s
  | [] => rfl
  | c :: t => by
      have ih := utf8_rt t
      have hv := charValidNat c
      have hsur : ¬(55296 ≤ c.toNat ∧ c.toNat < 57344) := by
        rcases hv with h | ⟨h1, _⟩ <;> omega
      have hmax : c.toNat < 1114112 := by
        rcases hv with h | ⟨_, h2⟩ <;> omega
      have henc : utf8Encode (c :: t) = utf8EncodeChar c ++ utf8Encode t := by
        simp [utf8Encode]
      rw [henc]
      simp only [utf8EncodeChar]
      by_cases h1 : c.toNat < 128
      · rw [if_pos h1]
        simp only [List.cons_append, List.nil_append]
        rw [utf8Decode_cons, if_pos h1, ih]
        simp [Char.ofNat_toNat]
      · rw [if_neg h1]
        by_cases h2 : c.toNat < 2048
        · rw [if_pos h2]
          simp only [List.cons_append, List.nil_append]
          rw [utf8Decode_cons]
          rw [if_neg (by omega)]
          rw [if_pos (by simp only [Bool.and_eq_true, decide_eq_true_eq]; omega)]
          dsimp only
          rw [if_pos (by simp only [isCont, Bool.and_eq_true, decide_eq_true_eq]; omega)]
          rw [show (192 + c.toNat / 64 - 192) * 64 + (128 + c.toNat % 64 - 128) = c.toNat from
            by omega]
          rw [ih]
          simp [Char.ofNat_toNat]
        · rw [if_neg h2]
          by_cases h3 : c.toNat < 65536
          · rw [if_pos h3]
            simp only [List.cons_append, List.nil_append]
            rw [utf8Decode_cons]
            rw [if_neg (by omega)]
            rw [if_neg (by simp only [Bool.and_eq_true, decide_eq_true_eq]; omega)]
            rw [if_pos (by simp only [Bool.and_eq_true, decide_eq_true_eq]; omega)]
            dsimp only
            rw [show (224 + c.toNat / 4096 - 224) * 4096 + (128 + c.toNat / 64 % 64 - 128) * 64 +
                (128 + c.toNat % 64 - 128) = c.toNat from by omega]
            rw [if_pos (by
              simp only [isCont, Bool.and_eq_true, decide_eq_true_eq, Bool.not_eq_true',
                Bool.and_eq_false_iff, decide_eq_false_iff_not]
              omega)]
            rw [ih]
            simp [Char.ofNat_toNat]
          · rw [if_neg h3]
            simp only [List.cons_append, List.nil_append]
            rw [utf8Decode_cons]
            rw [if_neg (by omega)]
            rw [if_neg (by simp only [Bool.and_eq_true, decide_eq_true_eq]; omega)]
            rw [if_neg (by simp only [Bool.and_eq_true, decide_eq_true_eq]; omega)]
            rw [if_pos (by simp only [Bool.and_eq_true, decide_eq_true_eq]; omega)]
            dsimp only
            rw [show (240 + c.toNat / 262144 - 240) * 262144 +
                (128 + c.toNat / 4096 % 64 - 128) * 4096 +
                (128 + c.toNat / 64 % 64 - 128) * 64 + (128 + c.toNat % 64 - 128) = c.toNat from
              by omega]
            rw [if_pos (by
              simp only [isCont, Bool.and_eq_true, decide_eq_true_eq]
              omega)]
            rw [ih]
            simp [Char.ofNat_toNat]


theorem decDigit_val : ∀ k, k < 10 → (decDigit k).toNat = 48 + k := by decide

theorem decDigit_digit : ∀ k, k < 10 → isDigitCh (decDigit k) = true := by decide

theorem natDigits_unfold (n : Nat) :
    natDigits n = if n < 10 then [decDigit n] else natDigits (n / 10) ++ [decDigit (n % 10)] := by
  rw [natDigits]
  by_cases h : n < 10
  · rw [dif_pos h, if_pos h]
  · rw [dif_neg h, if_neg h]

theorem natDigits_ne_nil (n : Nat) : natDigits n ≠ [] := by
  rw [natDigits_unfold]
  by_cases h : n < 10 <;> simp [h]

theorem natDigits_all_digits (n : Nat) : ∀ c ∈ natDigits n, isDigitCh c = true := by
  induction n using Nat.strong_induction_on with
  | _ n ih =>
      intro c hc
      rw [natDigits_unfold] at hc
      by_cases h : n < 10
      · rw [if_pos h] at hc
        simp only [List.mem_singleton] at hc
        subst hc
        exact decDigit_digit n h
      · rw [if_neg h] at hc
        rcases List.mem_append.mp hc with hc | hc
        · exact ih (n / 10) (Nat.div_lt_self (by omega) (by omega)) c hc
        · simp only [List.mem_singleton] at hc
          subst hc
          exact decDigit_digit _ (Nat.mod_lt _ (by omega))

theorem digitsVal_natDigits (n : Nat) : digitsVal (natDigits n) = n := by
  induction n using Nat.strong_induction_on with
  | _ n ih =>
      rw [natDigits_unfold]
      by_cases h : n < 10
      · rw [if_pos h]
        simp [digitsVal, decDigit_val n h]
      · rw [if_neg h]
        simp only [digitsVal, List.foldl_append, List.foldl_cons, List.foldl_nil]
        have := ih (n / 10) (Nat.div_lt_self (by omega) (by omega))
        rw [digitsVal] at this
        rw [this, decDigit_val _ (Nat.mod_lt _ (by omega))]
        omega

theorem readDigits_stop (l : List Char) (h : noDigitHead l = true) : readDigits l = ([], l) := by
  cases l with
  | nil => rfl
  | cons c t =>
      simp only [noDigitHead, Bool.not_eq_true'] at h
      simp [readDigits, h]

theorem readDigits_run (ds : List Char) (rest : List Char)
    (hds : ∀ c ∈ ds, isDigitCh c = true) (hrest : noDigitHead rest = true) :
    readDigits (ds ++ rest) = (ds, rest) := by
  induction ds with
  | nil => simpa using readDigits_stop rest hrest
  | cons c t ih =>
      have hc : isDigitCh c = true := hds c (by simp)
      have ht := ih (fun x hx => hds x (by simp [hx]))
      simp [readDigits, hc, ht]

theorem hexv_digit : ∀ m, m < 16 →
    hexv (if m < 10 then Char.ofNat (48 + m) else Char.ofNat (87 + m)) = some m := by decide

theorem readStringBody_cons (c : Char) (rest : List Char) :
    readStringBody (c :: rest) =
      (if c = '"' then some ([], rest)
       else if c = '\\' then
         (match rest with
          | [] => none
          | e :: t2 =>
              if e = 'u' then
                match t2 with
                | h1 :: h2 :: h3 :: h4 :: t3 => do
                    let v1 ← hexv h1
                    let v2 ← hexv h2
                    let v3 ← hexv h3
                    let v4 ← hexv h4
                    let p ← readStringBody t3
                    pure (Char.ofNat (((v1 * 16 + v2) * 16 + v3) * 16 + v4) :: p.1, p.2)
                | _ => none
              else do
                let u ← unescapePy e
                let p ← readStringBody t2
                pure (u :: p.1, p.2))
       else if c.toNat < 32 then none
       else do
         let p ← readStringBody rest
         pure (c :: p.1, p.2)) := by
  cases rest with
  | nil => rfl
  | cons e t2 =>
      cases t2 with
      | nil => rfl
      | cons x1 t3 =>
          cases t3 with
          | nil => rfl
          | cons x2 t4 =>
              cases t4 with
              | nil => rfl
              | cons x3 t5 =>
                  cases t5 with
                  | nil => rfl
                  | cons x4 t6 => rfl

theorem readStringBody_escape (c : Char) (rest : List Char) :
    readStringBody (pyEscapeChar c ++ rest) =
      (readStringBody rest).map (fun p => (c :: p.1, p.2)) := by
  simp only [pyEscapeChar]
  by_cases h1 : c = '"'
  · subst h1
    rw [if_pos rfl]
    simp only [List.cons_append, List.nil_append, readStringBody_cons]
    cases hr : readStringBody rest <;> simp [unescapePy, hr]
  · rw [if_neg h1]
    by_cases h2 : c = '\\'
    · subst h2
      rw [if_pos rfl]
      simp only [List.cons_append, List.nil_append, readStringBody_cons]
      cases hr : readStringBody rest <;> simp [unescapePy, hr]
    · rw [if_neg h2]
      by_cases h3 : c = '\n'
      · subst h3
        rw [if_pos rfl]
        simp only [List.cons_append, List.nil_append, readStringBody_cons]
        cases hr : readStringBody rest <;> simp [unescapePy, hr]
      · rw [if_neg h3]
        by_cases h4 : c = '\r'
        · subst h4
          rw [if_pos rfl]
          simp only [List.cons_append, List.nil_append, readStringBody_cons]
          cases hr : readStringBody rest <;> simp [unescapePy, hr]
        · rw [if_neg h4]
          by_cases h5 : c = '\t'
          · subst h5
            rw [if_pos rfl]
            simp only [List.cons_append, List.nil_append, readStringBody_cons]
            cases hr : readStringBody rest <;> simp [unescapePy, hr]
          · rw [if_neg h5]
            by_cases h6 : c = Char.ofNat 8
            · subst h6
              rw [if_pos rfl]
              simp only [List.cons_append, List.nil_append, readStringBody_cons]
              cases hr : readStringBody rest <;> simp [unescapePy, hr]
            · rw [if_neg h6]
              by_cases h7 : c = Char.ofNat 12
              · subst h7
                rw [if_pos rfl]
                simp only [List.cons_append, List.nil_append, readStringBody_cons]
                cases hr : readStringBody rest <;> simp [unescapePy, hr]
              · rw [if_neg h7]
                by_cases h8 : c.toNat < 32
                · rw [if_pos h8]
                  have hq1 : c.toNat / 16 < 16 := by omega
                  have hq2 : c.toNat % 16 < 16 := by omega
                  simp only [List.cons_append, List.nil_append]
                  rw [readStringBody_cons]
                  rw [if_neg (by decide), if_pos rfl]
                  dsimp only
                  rw [if_pos rfl]
                  rw [hexv_digit _ hq1, hexv_digit _ hq2]
                  rw [show hexv '0' = some 0 from rfl]
                  cases hr : readStringBody rest with
                  | none => rfl
                  | some p =>
                      show some (Char.ofNat (((0 * 16 + 0) * 16 + c.toNat / 16) * 16 +
                          c.toNat % 16) :: p.1, p.2) = some (c :: p.1, p.2)
                      rw [show ((0 * 16 + 0) * 16 + c.toNat / 16) * 16 + c.toNat % 16 = c.toNat
                        from by omega]
                      rw [Char.ofNat_toNat]
                · rw [if_neg h8]
                  simp only [List.cons_append, List.nil_append, readStringBody_cons]
                  rw [if_neg h1, if_neg h2, if_neg h8]
                  cases hr : readStringBody rest <;> simp [hr]

theorem readStringBody_print (s : List Char) : ∀ rest : List Char,
    readStringBody ((s.map pyEscapeChar).flatten ++ '"' :: rest) = some (s, rest) := by
  induction s with
  | nil =>
      intro rest
      rw [List.map_nil, List.flatten_nil, List.nil_append, readStringBody_cons, if_pos rfl]
  | cons c t ih =>
      intro rest
      rw [List.map_cons, List.flatten_cons, List.append_assoc, readStringBody_escape, ih]
      rfl

theorem digit_char_facts (c : Char) (h : isDigitCh c = true) :
    isJsonWs c = false ∧ c ≠ 'n' ∧ c ≠ 't' ∧ c ≠ 'f' ∧ c ≠ '"' ∧ c ≠ '[' ∧ c ≠ '{' ∧
      c ≠ '-' ∧ c ≠ ']' ∧ c ≠ '}' ∧ c ≠ ',' := by
  refine ⟨?_, ?_, ?_, ?_, ?_, ?_, ?_, ?_, ?_, ?_, ?_⟩
  · simp only [isDigitCh, Bool.and_eq_true, decide_eq_true_eq] at h
    simp only [isJsonWs, Bool.or_eq_false_iff, decide_eq_false_iff_not]
    refine ⟨⟨⟨?_, ?_⟩, ?_⟩, ?_⟩ <;> (intro heq; rw [heq] at h) <;> revert h <;> decide
  all_goals intro heq
  all_goals rw [heq] at h
  all_goals revert h
  all_goals decide

theorem skipSpaces_not_ws (c : Char) (t : List Char) (h : isJsonWs c = false) :
    skipSpaces (c :: t) = c :: t := by
  simp [skipSpaces, h]

theorem printJson_head (v : JVal) :
    ∃ c t, printJson v = c :: t ∧ isJsonWs c = false ∧ c ≠ ']' ∧ c ≠ '}' := by
  cases v with
  | null => refine ⟨'n', _, rfl, ?_, ?_, ?_⟩ <;> decide
  | jbool b =>
      cases b
      · refine ⟨'f', _, rfl, ?_, ?_, ?_⟩ <;> decide
      · refine ⟨'t', _, rfl, ?_, ?_, ?_⟩ <;> decide
  | jstr s => refine ⟨'"', _, rfl, ?_, ?_, ?_⟩ <;> decide
  | jarr elems => refine ⟨'[', _, rfl, ?_, ?_, ?_⟩ <;> decide
  | jobj fields => refine ⟨'{', _, rfl, ?_, ?_, ?_⟩ <;> decide
  | jnum i =>
      by_cases hi : i < 0
      · refine ⟨'-', natDigits i.natAbs, ?_, by decide, by decide, by decide⟩
        simp [printJson, intChars, hi]
      · obtain ⟨c0, t0, h0⟩ : ∃ c0 t0, natDigits i.natAbs = c0 :: t0 := by
          cases hnd : natDigits i.natAbs with
          | nil => exact absurd hnd (natDigits_ne_nil _)
          | cons c0 t0 => exact ⟨c0, t0, rfl⟩
        have hc0 : isDigitCh c0 = true :=
          natDigits_all_digits i.natAbs c0 (h0 ▸ List.mem_cons_self _ _)
        obtain ⟨hws, _, _, _, _, _, _, _, hbr, hbc, _⟩ := digit_char_facts c0 hc0
        refine ⟨c0, t0, ?_, hws, hbr, hbc⟩
        simp [printJson, intChars, hi, h0]

theorem skipSpaces_print (v : JVal) (x : List Char) :
    skipSpaces (printJson v ++ x) = printJson v ++ x := by
  obtain ⟨c, t, hct, hws, _, _⟩ := printJson_head v
  rw [hct, List.cons_append, skipSpaces_not_ws _ _ hws]

theorem natDigits_cons_decomp (m : Nat) :
    ∃ c0 t0, natDigits m = c0 :: t0 ∧ isDigitCh c0 = true := by
  cases hnd : natDigits m with
  | nil => exact absurd hnd (natDigits_ne_nil _)
  | cons c0 t0 =>
      exact ⟨c0, t0, rfl, natDigits_all_digits m c0 (hnd ▸ List.mem_cons_self _ _)⟩

theorem readJson_num (fuel : Nat) (i : Int) (rest : List Char)
    (hrest : noDigitHead rest = true) :
    readJson (fuel + 1) (intChars i ++ rest) = some (.jnum i, rest) := by
  obtain ⟨c0, t0, h0, hc0⟩ := natDigits_cons_decomp i.natAbs
  obtain ⟨hws, hn, ht, hf, hq, hbk, hbc, hm, _, _, _⟩ := digit_char_facts c0 hc0
  have hrun : readDigits (natDigits i.natAbs ++ rest) = (natDigits i.natAbs, rest) :=
    readDigits_run _ _ (natDigits_all_digits _) hrest
  have hval : digitsVal (natDigits i.natAbs) = i.natAbs := digitsVal_natDigits _
  by_cases hi : i < 0
  · have harg : intChars i ++ rest = '-' :: (natDigits i.natAbs ++ rest) := by
      simp [intChars, hi]
    rw [harg, readJson, skipSpaces_not_ws _ _ (by decide)]
    dsimp only
    rw [if_neg (by decide), if_neg (by decide), if_neg (by decide), if_neg (by decide),
      if_neg (by decide), if_neg (by decide), if_pos rfl]
    rw [hrun]
    dsimp only
    rw [h0]
    dsimp only [List.isEmpty_cons]
    rw [if_neg (by decide)]
    rw [← h0, hval]
    have : -(i.natAbs : Int) = i := by omega
    rw [this]
  · have harg : intChars i ++ rest = natDigits i.natAbs ++ rest := by
      simp [intChars, hi]
    rw [harg, h0, List.cons_append, readJson, skipSpaces_not_ws _ _ hws]
    dsimp only
    rw [if_neg hn, if_neg ht, if_neg hf, if_neg hq, if_neg hbk, if_neg hbc, if_neg hm,
      if_pos hc0]
    rw [← List.cons_append, ← h0, hrun]
    dsimp only
    rw [h0]
    dsimp only [List.isEmpty_cons]
    rw [if_neg (by decide)]
    rw [← h0, hval]
    have : (i.natAbs : Int) = i := by omega
    rw [this]

theorem readJson_ws_cons (fuel : Nat) (l : List Char) :
    readJson fuel (' ' :: l) = readJson fuel l := by
  cases fuel with
  | zero => rfl
  | succ f =>
      simp only [readJson]
      rw [show skipSpaces (' ' :: l) = skipSpaces l from rfl]

theorem readItems_ws (fuel : Nat) (l : List Char) :
    readItems fuel (' ' :: l) = readItems fuel l := by
  cases fuel with
  | zero => rfl
  | succ f =>
      simp only [readItems]
      rw [readJson_ws_cons]

theorem readPairs_ws (fuel : Nat) (l : List Char) :
    readPairs fuel (' ' :: l) = readPairs fuel l := by
  cases fuel with
  | zero => rfl
  | succ f =>
      simp only [readPairs]
      rw [show skipSpaces (' ' :: l) = skipSpaces l from rfl]

theorem printJson_length_pos (v : JVal) : 0 < (printJson v).length := by
  obtain ⟨c, t, hct, _⟩ := printJson_head v
  simp [hct]

theorem String.mk_data_eq (s : String) : String.mk s.data = s := rfl

theorem optBind_some {A B : Type} (a : A) (f : A → Option B) :
    (some a : Option A) >>= f = f a := rfl

mutual

theorem rt_val : ∀ (v : JVal) (fuel : Nat) (rest : List Char),
    (printJson v).length < fuel → noDigitHead rest = true →
    readJson fuel (printJson v ++ rest) = some (v, rest)
  | .null, fuel, rest, hf, _ => by
      cases fuel with
      | zero => exact absurd hf (Nat.not_lt_zero _)
      | succ f =>
          rw [show printJson .null ++ rest = 'n' :: 'u' :: 'l' :: 'l' :: rest from rfl,
            readJson]
          rfl
  | .jbool true, fuel, rest, hf, _ => by
      cases fuel with
      | zero => exact absurd hf (Nat.not_lt_zero _)
      | succ f =>
          rw [show printJson (.jbool true) ++ rest = 't' :: 'r' :: 'u' :: 'e' :: rest from rfl,
            readJson]
          rfl
  | .jbool false, fuel, rest, hf, _ => by
      cases fuel with
      | zero => exact absurd hf (Nat.not_lt_zero _)
      | succ f =>
          rw [show printJson (.jbool false) ++ rest =
            'f' :: 'a' :: 'l' :: 's' :: 'e' :: rest from rfl, readJson]
          rfl
  | .jnum i, fuel, rest, hf, hrest => by
      cases fuel with
      | zero => exact absurd hf (Nat.not_lt_zero _)
      | succ f => exact readJson_num f i rest hrest
  | .jstr s, fuel, rest, hf, _ => by
      cases fuel with
      | zero => exact absurd hf (Nat.not_lt_zero _)
      | succ f =>
          rw [show printJson (.jstr s) ++ rest =
            '"' :: ((s.data.map pyEscapeChar).flatten ++ '"' :: rest) from by
              simp [printJson, printStr], readJson, skipSpaces_not_ws _ _ (by decide)]
          dsimp only
          rw [if_neg (by decide), if_neg (by decide), if_neg (by decide), if_pos rfl,
            readStringBody_print]
          rfl
  | .jarr [], fuel, rest, hf, _ => by
      cases fuel with
      | zero => exact absurd hf (Nat.not_lt_zero _)
      | succ f =>
          rw [show printJson (.jarr []) ++ rest = '[' :: ']' :: rest from by
            simp [printJson, printItems], readJson]
          rfl
  | .jarr (x :: xs), fuel, rest, hf, hrest => by
      cases fuel with
      | zero => exact absurd hf (Nat.not_lt_zero _)
      | succ f =>
          obtain ⟨c0, t0, h0, hws0, hbr0, _⟩ := printJson_head x
          have hlen : (printItems (x :: xs)).length + 1 < f := by
            have : (printJson (.jarr (x :: xs))).length = (printItems (x :: xs)).length + 2 := by
              simp [printJson]
            omega
          have harg : printJson (.jarr (x :: xs)) ++ rest =
              '[' :: (printItems (x :: xs) ++ ']' :: rest) := by
            simp [printJson, List.append_assoc]
          rw [harg, readJson, skipSpaces_not_ws _ _ (by decide)]
          dsimp only
          rw [if_neg (by decide), if_neg (by decide), if_neg (by decide), if_neg (by decide),
            if_pos rfl]
          obtain ⟨L, hL⟩ : ∃ L, printItems (x :: xs) ++ ']' :: rest = c0 :: L := by
            cases xs with
            | nil => exact ⟨t0 ++ ']' :: rest, by simp [printItems, h0]⟩
            | cons y ys =>
                exact ⟨t0 ++ ',' :: ' ' :: printItems (y :: ys) ++ ']' :: rest, by
                  simp [printItems, h0]⟩
          rw [hL, skipSpaces_not_ws _ _ hws0]
          dsimp only
          rw [if_neg hbr0, ← hL, rt_items x xs f rest hlen hrest]
          rfl
  | .jobj [], fuel, rest, hf, _ => by
      cases fuel with
      | zero => exact absurd hf (Nat.not_lt_zero _)
      | succ f =>
          rw [show printJson (.jobj []) ++ rest = '{' :: '}' :: rest from by
            simp [printJson, printPairs], readJson]
          rfl
  | .jobj (kv :: ms), fuel, rest, hf, hrest => by
      cases fuel with
      | zero => exact absurd hf (Nat.not_lt_zero _)
      | succ f =>
          have hlen : (printPairs (kv :: ms)).length + 1 < f := by
            have : (printJson (.jobj (kv :: ms))).length = (printPairs (kv :: ms)).length + 2 := by
              simp [printJson]
            omega
          have harg : printJson (.jobj (kv :: ms)) ++ rest =
              '{' :: (printPairs (kv :: ms) ++ '}' :: rest) := by
            simp [printJson, List.append_assoc]
          rw [harg, readJson, skipSpaces_not_ws _ _ (by decide)]
          dsimp only
          rw [if_neg (by decide), if_neg (by decide), if_neg (by decide), if_neg (by decide),
            if_neg (by decide), if_pos rfl]
          obtain ⟨L, hL⟩ : ∃ L, printPairs (kv :: ms) ++ '}' :: rest = '"' :: L := by
            obtain ⟨k, v⟩ := kv
            cases ms with
            | nil =>
                exact ⟨((k.data.map pyEscapeChar).flatten ++ ['"']) ++
                  ':' :: ' ' :: printJson v ++ '}' :: rest, by
                    simp [printPairs, printStr, List.append_assoc]⟩
            | cons p ms2 =>
                exact ⟨((k.data.map pyEscapeChar).flatten ++ ['"']) ++
                  ':' :: ' ' :: printJson v ++ ',' :: ' ' :: printPairs (p :: ms2) ++
                    '}' :: rest, by simp [printPairs, printStr, List.append_assoc]⟩
          rw [hL, skipSpaces_not_ws _ _ (by decide)]
          dsimp only
          rw [if_neg (by decide), ← hL, rt_pairs kv ms f rest hlen hrest]
          rfl
termination_by v _ _ _ _ => sizeOf v

theorem rt_items : ∀ (x : JVal) (xs : List JVal) (fuel : Nat) (rest : List Char),
    (printItems (x :: xs)).length + 1 < fuel → noDigitHead rest = true →
    readItems fuel (printItems (x :: xs) ++ ']' :: rest) = some (x :: xs, rest)
  | x, [], fuel, rest, hf, hrest => by
      cases fuel with
      | zero => exact absurd hf (Nat.not_lt_zero _)
      | succ f =>
          have hfx : (printJson x).length < f := by
            have : printItems [x] = printJson x := rfl
            rw [this] at hf
            omega
          rw [show printItems [x] = printJson x from rfl, readItems,
            rt_val x f (']' :: rest) hfx rfl, optBind_some]
          dsimp only
          rw [skipSpaces_not_ws _ _ (by decide)]
          dsimp only
          rw [if_neg (by decide), if_pos rfl]
          rfl
  | x, y :: ys, fuel, rest, hf, hrest => by
      cases fuel with
      | zero => exact absurd hf (Nat.not_lt_zero _)
      | succ f =>
          have hlen : (printItems (x :: y :: ys)).length =
              (printJson x).length + ((printItems (y :: ys)).length + 1 + 1) := by
            simp [printItems]
          have hfx : (printJson x).length < f := by omega
          have hfy : (printItems (y :: ys)).length + 1 < f := by
            have := printJson_length_pos x
            omega
          have harg : printItems (x :: y :: ys) ++ ']' :: rest =
              printJson x ++ ',' :: ' ' :: (printItems (y :: ys) ++ ']' :: rest) := by
            simp [printItems, List.append_assoc]
          rw [readItems, harg,
            rt_val x f (',' :: ' ' :: (printItems (y :: ys) ++ ']' :: rest)) hfx rfl,
            optBind_some]
          dsimp only
          rw [skipSpaces_not_ws _ _ (by decide)]
          dsimp only
          rw [if_pos rfl, readItems_ws, rt_items y ys f rest hfy hrest, optBind_some]
          rfl
termination_by x xs _ _ _ _ => sizeOf x + sizeOf xs

theorem rt_pairs : ∀ (kv : String × JVal) (ms : List (String × JVal)) (fuel : Nat)
    (rest : List Char),
    (printPairs (kv :: ms)).length + 1 < fuel → noDigitHead rest = true →
    readPairs fuel (printPairs (kv :: ms) ++ '}' :: rest) = some (kv :: ms, rest)
  | (k, v), [], fuel, rest, hf, hrest => by
      cases fuel with
      | zero => exact absurd hf (Nat.not_lt_zero _)
      | succ f =>
          have hlen : (printPairs [(k, v)]).length =
              (k.data.map pyEscapeChar).flatten.length + 4 + (printJson v).length := by
            simp [printPairs, printStr]
            omega
          have hfv : (printJson v).length < f := by omega
          have harg : printPairs [(k, v)] ++ '}' :: rest =
              '"' :: ((k.data.map pyEscapeChar).flatten ++
                '"' :: (':' :: ' ' :: (printJson v ++ '}' :: rest))) := by
            simp [printPairs, printStr, List.append_assoc]
          rw [readPairs, harg, skipSpaces_not_ws _ _ (by decide)]
          dsimp only
          rw [if_pos rfl, readStringBody_print, optBind_some]
          dsimp only
          rw [skipSpaces_not_ws _ _ (by decide)]
          dsimp only
          rw [if_pos rfl, readJson_ws_cons, rt_val v f ('}' :: rest) hfv rfl,
            optBind_some]
          dsimp only
          rw [skipSpaces_not_ws _ _ (by decide)]
          dsimp only
          rw [if_neg (by decide), if_pos rfl, String.mk_data_eq]
          rfl
  | (k, v), p :: ms2, fuel, rest, hf, hrest => by
      cases fuel with
      | zero => exact absurd hf (Nat.not_lt_zero _)
      | succ f =>
          have hlen : (printPairs ((k, v) :: p :: ms2)).length =
              (k.data.map pyEscapeChar).flatten.length + 6 + (printJson v).length +
                (printPairs (p :: ms2)).length := by
            simp [printPairs, printStr]
            omega
          have hfv : (printJson v).length < f := by omega
          have hfp : (printPairs (p :: ms2)).length + 1 < f := by omega
          have harg : printPairs ((k, v) :: p :: ms2) ++ '}' :: rest =
              '"' :: ((k.data.map pyEscapeChar).flatten ++
                '"' :: (':' :: ' ' :: (printJson v ++
                  ',' :: ' ' :: (printPairs (p :: ms2) ++ '}' :: rest)))) := by
            simp [printPairs, printStr, List.append_assoc]
          rw [readPairs, harg, skipSpaces_not_ws _ _ (by decide)]
          dsimp only
          rw [if_pos rfl, readStringBody_print, optBind_some]
          dsimp only
          rw [skipSpaces_not_ws _ _ (by decide)]
          dsimp only
          rw [if_pos rfl, readJson_ws_cons,
            rt_val v f (',' :: ' ' :: (printPairs (p :: ms2) ++ '}' :: rest)) hfv rfl,
            optBind_some]
          dsimp only
          rw [skipSpaces_not_ws _ _ (by decide)]
          dsimp only
          rw [if_pos rfl, readPairs_ws, rt_pairs p ms2 f rest hfp hrest, optBind_some,
            String.mk_data_eq]
          rfl
termination_by kv ms _ _ _ _ => sizeOf kv + sizeOf ms

end

theorem utf8EncodeChar_ne_nil (c : Char) : utf8EncodeChar c ≠ [] := by
  simp only [utf8EncodeChar]
  split_ifs <;> simp

theorem utf8Encode_lt (s : List Char) : ∀ b ∈ utf8Encode s, b < 256 := by
  intro b hb
  simp only [utf8Encode, List.mem_flatten] at hb
  obtain ⟨l, hl, hbl⟩ := hb
  obtain ⟨c, _, rfl⟩ := List.mem_map.mp hl
  exact utf8EncodeChar_lt c b hbl

theorem b64EncodeBytes_ne_nil : ∀ l : List Nat, l ≠ [] → b64EncodeBytes l ≠ []
  | [], h => absurd rfl h
  | [_], _ => by simp [b64EncodeBytes]
  | [_, _], _ => by simp [b64EncodeBytes]
  | _ :: _ :: _ :: _, _ => by simp [b64EncodeBytes]

theorem encodePayload_ne_nil (P : JVal) : encodePayload P ≠ [] := by
  have hne : utf8Encode (printJson P) ≠ [] := by
    obtain ⟨c, t, hct, _⟩ := printJson_head P
    rw [hct]
    simp only [utf8Encode, List.map_cons, List.flatten_cons]
    intro hcontra
    rcases List.append_eq_nil.mp hcontra with ⟨h1, _⟩
    exact utf8EncodeChar_ne_nil c h1
  exact b64EncodeBytes_ne_nil _ hne

theorem jsonLoads_print (P : JVal) : jsonLoads (printJson P) = some P := by
  have h := rt_val P ((printJson P).length + 1) [] (by omega) rfl
  rw [List.append_nil] at h
  rw [jsonLoads, h]
  rfl

theorem decodeChain_encode (P : JVal) : decodeChain (encodePayload P) = some P := by
  rw [decodeChain, encodePayload, b64_decode_encode _ (utf8Encode_lt _)]
  show (utf8Decode (utf8Encode (printJson P))).bind (fun cs => jsonLoads cs) = some P
  rw [utf8_rt]
  show jsonLoads (printJson P) = some P
  exact jsonLoads_print P

theorem decode_message_envelope (P : JVal) : decode_message (envelopeOf P) = some P := by
  have htr : truthy (.jstr ⟨encodePayload P⟩) = true := by
    cases hl : encodePayload P with
    | nil => exact absurd hl (encodePayload_ne_nil P)
    | cons a l => rfl
  have hred : decode_message (envelopeOf P) =
      if truthy (.jstr ⟨encodePayload P⟩) then decodeChain (encodePayload P) else
        (if hasKey (envelopeOf P) "payload" && hasKey (envelopeOf P) "source_timestamp"
         then some (envelopeOf P) else none) := rfl
  rw [hred, if_pos htr]
  exact decodeChain_encode P

/-- **C8**: Decode round-trip.  For every structured payload `P` — a JSON
mapping carrying the `payload` and `source_timestamp` keys — serialising `P`
with `json.dumps`, encoding as UTF-8, base64-encoding the bytes, wrapping the
base64 text into the transport envelope at `data.message.data`, and applying
`decode_message` returns `P` exactly. -/
theorem decode_round_trip (kvs : List (String × JVal))
    (hp : hasKey (.jobj kvs) "payload" = true)
    (hs : hasKey (.jobj kvs) "source_timestamp" = true) :
    decode_message (envelopeOf (.jobj kvs)) = some (.jobj kvs) :=
  decode_message_envelope (.jobj kvs)

theorem decode_round_trip_witness :
    hasKey witnessPayload "payload" = true ∧
    hasKey witnessPayload "source_timestamp" = true ∧
    decode_message (envelopeOf witnessPayload) = some witnessPayload :=
  ⟨rfl, rfl, decode_round_trip
    [("payload", .jobj [("pipeline_uuid", .jstr "pipesv2_approval")]),
     ("source_timestamp", .jstr "2024-01-15T10:30:00Z")] rfl rfl⟩
